import Mathlib

/-!
# CXBMCTinyXML (xbmc/utils/XBMCTinyXML.cpp)

A shallow embedding of the entity-repair preprocessing of
`CXBMCTinyXML::InternalParse` and of the charset resolution of
`CXBMCTinyXML::Parse`, `TryParse` and `LoadFile`.

A `std::string` is a list of characters (one per byte).  The external
collaborators (TinyXML's document parser, the charset detector and converter,
the UTF-8 validator, the GUI charset, the file layer) are parameters.
-/

namespace XBMCTinyXML

/-- A `std::string`: the sequence of its characters. -/
abbrev Str := List Char

/-! ## std::string operations used by the source -/

/-- Index of the first occurrence of `c` in `s`, if any. -/
def indexOfChar (c : Char) : Str → Option Nat
  | [] => none
  | x :: xs => if x = c then some 0 else (indexOfChar c xs).map (· + 1)

/-- The call `s.find(c, pos)` of `std::string`: the first index at or after `pos`
that holds `c`; `none` is `std::string::npos`. -/
def find (s : Str) (c : Char) (pos : Nat) : Option Nat :=
  (indexOfChar c (s.drop pos)).map (· + pos)

/-- The call `s.insert(pos, t)` of `std::string`, for `pos ≤ s.size()`. -/
def insert (s : Str) (pos : Nat) (t : Str) : Str :=
  s.take pos ++ t ++ s.drop pos

/-! ## The regular expression of `InternalParse` -/

/-- Regular expressions, as far as the pattern of `InternalParse` needs them. -/
inductive Re where
  | eps
  | lit (c : Char)
  | cls (ranges : List (Char × Char))
  | dot
  | cat (a b : Re)
  | alt (a b : Re)
  | rep (lo hi : Nat) (r : Re)
  | star (r : Re)

/-- Exactly `n` iterations of a matcher. -/
def iterExact (f : Str → List Str) : Nat → Str → List Str
  | 0, s => [s]
  | n + 1, s => (f s).flatMap (iterExact f n)

/-- At most `n` iterations of a matcher. -/
def iterUpTo (f : Str → List Str) : Nat → Str → List Str
  | 0, s => [s]
  | n + 1, s => s :: (f s).flatMap (iterUpTo f n)

/-- All the ways `r` matches a prefix of `s`: the list of what is left of `s` after
each match (the subject is matched from its first character, as under `^`).
`.` matches any character but a newline; a class is a list of inclusive ranges. -/
def Re.run : Re → Str → List Str
  | .eps, s => [s]
  | .lit c, s =>
    match s with
    | x :: t => if x = c then [t] else []
    | [] => []
  | .cls ranges, s =>
    match s with
    | x :: t => if ranges.any (fun r => decide (r.1 ≤ x ∧ x ≤ r.2)) then [t] else []
    | [] => []
  | .dot, s =>
    match s with
    | x :: t => if x = '\n' then [] else [t]
    | [] => []
  | .cat a b, s => (a.run s).flatMap (fun t => b.run t)
  | .alt a b, s => a.run s ++ b.run s
  | .rep lo hi r, s => (iterExact (fun t => r.run t) lo s).flatMap (iterUpTo (fun t => r.run t) (hi - lo))
  | .star r, s => iterUpTo (fun t => r.run t) s.length s

/-- The regular expression matching the characters of a word in sequence. -/
def Re.word : Str → Re
  | [] => .eps
  | c :: cs => .cat (.lit c) (Re.word cs)

/-- `#define MAX_ENTITY_LENGTH 8 // size of largest entity "&#xNNNN;"` -/
def MAX_ENTITY_LENGTH : Nat := 8

/-- The class `[a-fA-F0-9]`. -/
def hexClass : Re := .cls [('a', 'f'), ('A', 'F'), ('0', '9')]

/-- The class `[0-9]`. -/
def decClass : Re := .cls [('0', '9')]

/-- The pattern of `InternalParse`:
`^&(amp|lt|gt|quot|apos|#x[a-fA-F0-9]{1,4}|#[0-9]{1,5});.*`
(case sensitive, ASCII only). -/
def entityPattern : Re :=
  .cat (.lit '&')
    (.cat
      (.alt (Re.word "amp".toList)
        (.alt (Re.word "lt".toList)
          (.alt (Re.word "gt".toList)
            (.alt (Re.word "quot".toList)
              (.alt (Re.word "apos".toList)
                (.alt (.cat (.lit '#') (.cat (.lit 'x') (.rep 1 4 hexClass)))
                  (.cat (.lit '#') (.rep 1 5 decClass))))))))
      (.cat (.lit ';') (.star .dot)))

/-- Modelled from the spec: `CRegExp::RegFind(str, startoffset, maxNumberOfCharsToTest)`
(utils/RegExp.cpp is not among the sources).  The pattern is tested against the
lookahead window of at most `maxNumberOfCharsToTest` characters of `str` that
starts at `startoffset`; the result is the offset of the match, negative when
there is none.  The pattern here starts with `^`, so a match starts at
`startoffset`. -/
def RegFind (re : Re) (str : Str) (startoffset : Nat) (maxNumberOfCharsToTest : Nat) : Int :=
  if str.length < startoffset then -1
  else if (re.run ((str.drop startoffset).take maxNumberOfCharsToTest)).isEmpty then -1
  else (startoffset : Int)

/-! ## The entity repair of `InternalParse` -/

/-- The `do ... while` loop of `InternalParse`, entered with `data[pos] == '&'`:
```
do
{
  if (re.RegFind(data, pos, MAX_ENTITY_LENGTH) < 0)
    data.insert(pos + 1, "amp;");
  pos = data.find('&', pos + 1);
} while (pos != std::string::npos);
```
One unit of fuel is one iteration; `none` means the fuel ran out. -/
def repairLoop : Nat → Str → Nat → Option Str
  | 0, _, _ => none
  | fuel + 1, data, pos =>
    let data1 := if RegFind entityPattern data pos MAX_ENTITY_LENGTH < 0
      then insert data (pos + 1) "amp;".toList else data
    match find data1 '&' (pos + 1) with
    | none => some data1
    | some pos1 => repairLoop fuel data1 pos1

/-- The preprocessing of `InternalParse`: the text that is handed to
`TiXmlDocument::Parse`.  Without any `&` it is `rawdata` itself, otherwise the
result of the loop on a copy of it.  The loop is given one iteration per character of
`rawdata`. -/
def entityRepair (rawdata : Str) : Option Str :=
  match find rawdata '&' 0 with
  | none => some rawdata
  | some pos => repairLoop rawdata.length rawdata pos

/-! ## The reference rewrite of the specification -/

/-- Whether the text that starts at an `&` begins a legal entity form, judged on
its first `MAX_ENTITY_LENGTH` characters. -/
def beginsEntity (s : Str) : Bool :=
  !(entityPattern.run (s.take MAX_ENTITY_LENGTH)).isEmpty

/-- The rewrite the specification describes: `amp;` is inserted right after each
`&` of the input that does not begin a legal entity form; everything else is copied. -/
def refRepair : Str → Str
  | [] => []
  | c :: rest =>
    if c = '&' then
      if beginsEntity (c :: rest) then c :: refRepair rest
      else c :: 'a' :: 'm' :: 'p' :: ';' :: refRepair rest
    else c :: refRepair rest

/-! ## The legal entity forms, in the words of the specification -/

/-- A decimal digit. -/
def IsDecDigit (c : Char) : Prop := '0' ≤ c ∧ c ≤ '9'

/-- A hexadecimal digit, in either case. -/
def IsHexDigit (c : Char) : Prop :=
  ('a' ≤ c ∧ c ≤ 'f') ∨ ('A' ≤ c ∧ c ≤ 'F') ∨ ('0' ≤ c ∧ c ≤ '9')

instance (c : Char) : Decidable (IsDecDigit c) := by
  unfold IsDecDigit; infer_instance

instance (c : Char) : Decidable (IsHexDigit c) := by
  unfold IsHexDigit; infer_instance

/-- What stands between the `&` and the `;` of a legal entity form: one of the five
names, `#` with 1 to 5 decimal digits, or `#x` with 1 to 4 hexadecimal digits. -/
def EntityBody (b : Str) : Prop :=
  b = "amp".toList ∨ b = "lt".toList ∨ b = "gt".toList ∨ b = "quot".toList ∨
  b = "apos".toList ∨
  (∃ ds : Str, 1 ≤ ds.length ∧ ds.length ≤ 5 ∧ (∀ d ∈ ds, IsDecDigit d) ∧ b = '#' :: ds) ∨
  (∃ hs : Str, 1 ≤ hs.length ∧ hs.length ≤ 4 ∧ (∀ h ∈ hs, IsHexDigit h) ∧
    b = '#' :: 'x' :: hs)

/-- The text `t` that immediately follows an `&` makes it a legal entity: `t` starts
with `amp;`, `lt;`, `gt;`, `quot;`, `apos;`, `#` then 1 to 5 decimal digits then `;`, or
`#x` then 1 to 4 hexadecimal digits then `;`. -/
def LegalAfterAmp (t : Str) : Prop :=
  ∃ b : Str, EntityBody b ∧ (b ++ [';']) <+: t

/-- Every `&` of the text is immediately followed by a legal entity form. -/
def AllAmpLegal : Str → Prop
  | [] => True
  | c :: t => (c = '&' → LegalAfterAmp t) ∧ AllAmpLegal t

/-- What the loop inserts after an `&` followed by `rest`. -/
def inserted (rest : Str) : Str :=
  if beginsEntity ('&' :: rest) then [] else "amp;".toList

/-! ## XML entity decoding -/

/-- Whether `t` starts with the word `w`. -/
def startsWith : Str → Str → Bool
  | [], _ => true
  | _ :: _, [] => false
  | a :: w, b :: t => decide (a = b) && startsWith w t

/-- The value of a hexadecimal digit. -/
def hexDigitValue (c : Char) : Nat :=
  if '0' ≤ c ∧ c ≤ '9' then c.toNat - '0'.toNat
  else if 'a' ≤ c ∧ c ≤ 'f' then c.toNat - 'a'.toNat + 10
  else c.toNat - 'A'.toNat + 10

/-- The number a string of digits denotes in the given base. -/
def digitsValue (base : Nat) (ds : Str) : Nat :=
  ds.foldl (fun n d => base * n + hexDigitValue d) 0

/-- Modelled from the spec: the entity reference of XML that the text after an `&`
starts with, as the code point it denotes and the number of characters it takes
(the `;` included): the five predefined names, `#` decimal digits `;` and `#x`
hexadecimal digits `;`.  The decoder of the XML parser is not among the sources. -/
def entityAt (t : Str) : Option (Nat × Nat) :=
  if startsWith "#x".toList t then
    let hs := (t.drop 2).takeWhile (fun c => decide (IsHexDigit c))
    if hs ≠ [] ∧ (t.drop (2 + hs.length)).head? = some ';' then
      some (digitsValue 16 hs, hs.length + 3)
    else none
  else if startsWith "#".toList t then
    let ds := (t.drop 1).takeWhile (fun c => decide (IsDecDigit c))
    if ds ≠ [] ∧ (t.drop (1 + ds.length)).head? = some ';' then
      some (digitsValue 10 ds, ds.length + 2)
    else none
  else if startsWith "amp;".toList t then some ('&'.toNat, 4)
  else if startsWith "lt;".toList t then some ('<'.toNat, 3)
  else if startsWith "gt;".toList t then some ('>'.toNat, 3)
  else if startsWith "quot;".toList t then some ('"'.toNat, 5)
  else if startsWith "apos;".toList t then some ('\''.toNat, 5)
  else none

/-- Entity decoding with `skip` characters of a reference still to pass over. -/
def xmlDecodeAux : Nat → Str → Option (List Nat)
  | _, [] => some []
  | skip + 1, _ :: t => xmlDecodeAux skip t
  | 0, c :: t =>
    if c = '&' then
      match entityAt t with
      | some (v, n) => (xmlDecodeAux n t).map (v :: ·)
      | none => none
    else (xmlDecodeAux 0 t).map (c.toNat :: ·)

/-- Modelled from the spec: standard XML entity decoding of a text, as the code
points of the decoded text: every entity reference is replaced by the character it
denotes, every other character stands for itself, and an `&` that starts no entity
reference is an error (`none`). -/
def xmlDecode (s : Str) : Option (List Nat) := xmlDecodeAux 0 s

/-- The expected text, with `skip` characters of a reference still to pass over. -/
def expectedTextAux : Nat → Str → List Nat
  | _, [] => []
  | skip + 1, _ :: t => expectedTextAux skip t
  | 0, c :: t =>
    if c = '&' ∧ beginsEntity (c :: t) = true then
      match entityAt t with
      | some (v, n) => v :: expectedTextAux n t
      | none => c.toNat :: expectedTextAux 0 t
    else c.toNat :: expectedTextAux 0 t

/-- The text the specification expects from parsing an input: the input with each
legal reference replaced by its character and each bare `&` (one that begins no legal
entity form) kept as a literal `&`. -/
def expectedText (s : Str) : List Nat := expectedTextAux 0 s

/-- The input of `CXBMCTinyXML::Test()`. -/
def testData : Str :=
  ("<details><url function=\"ParseTMDBRating\" " ++
   "cache=\"tmdb-en-12244.json\">" ++
   "http://api.themoviedb.org/3/movie/12244" ++
   "?api_key=57983e31fb435df4df77afb854740ea9" ++
   "&language=en&#x3f;&#x003F;&#0063;</url></details>").toList

/-- The input of `Test()` with its one bare `&` escaped. -/
def testRepaired : Str :=
  ("<details><url function=\"ParseTMDBRating\" " ++
   "cache=\"tmdb-en-12244.json\">" ++
   "http://api.themoviedb.org/3/movie/12244" ++
   "?api_key=57983e31fb435df4df77afb854740ea9" ++
   "&amp;language=en&#x3f;&#x003F;&#0063;</url></details>").toList

/-- The input of `Test()` with the text of `url` as `Test()` expects it. -/
def testDecoded : Str :=
  ("<details><url function=\"ParseTMDBRating\" " ++
   "cache=\"tmdb-en-12244.json\">" ++
   "http://api.themoviedb.org/3/movie/12244?api_key=57983e31fb435df4df77afb854740ea9&language=en???" ++
   "</url></details>").toList

/-! ## The document and its collaborators -/

/-- The encodings of TinyXML (`TiXmlEncoding`). -/
inductive TiXmlEncoding where
  | TIXML_ENCODING_UNKNOWN
  | TIXML_ENCODING_UTF8
  | TIXML_ENCODING_LEGACY
  deriving DecidableEq, Repr

/-- `const TiXmlEncoding TIXML_DEFAULT_ENCODING = TIXML_ENCODING_UNKNOWN;` -/
def TIXML_DEFAULT_ENCODING : TiXmlEncoding := .TIXML_ENCODING_UNKNOWN

/-- A node of the document tree, as far as the source looks at it. -/
structure TiXmlNode where
  value : Str
  deriving DecidableEq, Repr

/-- The state of the `TiXmlDocument` base object: the file name (`value`), the
children of the document node (the tree), the error flag and id, and the cursor
`location` (row and column). -/
structure TiXmlDocument where
  value : Str
  children : List TiXmlNode
  error : Bool
  errorId : Nat
  location : Int × Int
  deriving DecidableEq, Repr

/-- The error id `TIXML_ERROR_OPENING_FILE` of TinyXML. -/
def TIXML_ERROR_OPENING_FILE : Nat := 2

/-- The messages `CXBMCTinyXML::Parse` logs with `CLog::Log(LOGWARNING, ...)`; `source`
is `XML data` or the file name. -/
inductive LogMessage where
  | usedInsteadOfSuggested (used suggested source : Str)
  | usedInsteadOfDetected (used detected source : Str)
  | unknownInsteadOfSuggested (source suggested : Str)
  | unknownInsteadOfDetected (source detected : Str)
  deriving DecidableEq, Repr

/-- The calls the source makes to its collaborators, recorded in the order they
are made. -/
inductive Call where
  | fileLoadFile (filename : Str)
  | fileGetProperty (filename : Str)
  | DetectXmlEncoding (data : Str)
  | isValidUtf8 (data : Str)
  | GetGuiCharSet
  | ToUtf8 (charset data : Str)
  | TiXmlParse (text : Str) (encoding : TiXmlEncoding)
  | Log (msg : LogMessage)
  deriving DecidableEq, Repr

/-- A `CXBMCTinyXML` object: the `TiXmlDocument` base, `m_SuggestedCharset`,
`m_UsedCharset`, and the record of the collaborator calls made so far. -/
structure CXBMCTinyXML extends TiXmlDocument where
  m_SuggestedCharset : Str
  m_UsedCharset : Str
  calls : List Call
  deriving DecidableEq, Repr

/-- The collaborators of the source, none of which is among the sources:
* `TiXmlParse text encoding` is `TiXmlDocument::Parse(text, NULL, encoding)`: whether
  the result is non-NULL, and the base object afterwards;
* `DetectXmlEncoding data` is `CCharsetDetection::DetectXmlEncoding`: its result and
  the detected charset it stores;
* `ToUtf8 charset data` is `g_charsetConverter.ToUtf8(charset, data, converted, true)`:
  its result and `converted`;
* `isValidUtf8` is `CUtf8Utils::isValidUtf8`;
* `GetGuiCharSet` is `g_langInfo.GetGuiCharSet()`;
* `fileLoadFile name` is `XFILE::CFile::LoadFile`: its result and the buffer;
* `fileContentCharset name` is `file.GetProperty(XFILE::FileProperty::CONTENT_CHARSET)`
  after the file was loaded. -/
structure Collaborators where
  TiXmlParse : Str → TiXmlEncoding → TiXmlDocument → Bool × TiXmlDocument
  DetectXmlEncoding : Str → Bool × Str
  ToUtf8 : Str → Str → Bool × Str
  isValidUtf8 : Str → Bool
  GetGuiCharSet : Str
  fileLoadFile : Str → Int × Str
  fileContentCharset : Str → Str

/-- Records a collaborator call. -/
def CXBMCTinyXML.call (doc : CXBMCTinyXML) (c : Call) : CXBMCTinyXML :=
  { doc with calls := doc.calls ++ [c] }

/-- `TiXmlNode::Clear()`: deletes all the children of the document node. -/
def CXBMCTinyXML.Clear (doc : CXBMCTinyXML) : CXBMCTinyXML :=
  { doc with children := [] }

/-- `location.Clear()`: `row = col = -1`. -/
def CXBMCTinyXML.locationClear (doc : CXBMCTinyXML) : CXBMCTinyXML :=
  { doc with location := (-1, -1) }

/-- `TiXmlDocument::SetError(err, NULL, NULL, encoding)` of TinyXML, which starts with
`// The first error in a chain is more accurate - don't set again!` and
`if ( error ) return;`: the first error is kept, a later one is not recorded over it. -/
def CXBMCTinyXML.SetError (doc : CXBMCTinyXML) (err : Nat) : CXBMCTinyXML :=
  if doc.error then doc else { doc with error := true, errorId := err }

/-- Modelled from the spec: `StringUtils::ToUpper` (not among the sources), which
normalizes a charset name to upper case. -/
def ToUpper (s : Str) : Str := s.map Char.toUpper

/-- The charset name `"UTF-8"`. -/
def UTF8 : Str := "UTF-8".toList

/-- The last argument of the log calls:
`(value.empty() ? "XML data" : ("file \"" + value + "\""))`. -/
def logSource (doc : CXBMCTinyXML) : Str :=
  if doc.value = [] then "XML data".toList else "file \"".toList ++ doc.value ++ "\"".toList

/-- The call `TiXmlDocument::Parse(text, NULL, encoding) != NULL`. -/
def TiXmlDocumentParse (env : Collaborators) (text : Str) (encoding : TiXmlEncoding)
    (doc : CXBMCTinyXML) : Bool × CXBMCTinyXML :=
  let r := env.TiXmlParse text encoding doc.toTiXmlDocument
  (r.1, { doc.call (.TiXmlParse text encoding) with toTiXmlDocument := r.2 })

/-- `CXBMCTinyXML::InternalParse(rawdata, encoding)`: the entity repair, then the
parser on the repaired text. -/
def InternalParse (env : Collaborators) (rawdata : Str) (encoding : TiXmlEncoding)
    (doc : CXBMCTinyXML) : Option (Bool × CXBMCTinyXML) :=
  (entityRepair rawdata).map (fun data => TiXmlDocumentParse env data encoding doc)

/-- The end of `TryParse`, after its call of `InternalParse`:
```
if (Error())
{
  Clear();
  location.Clear();
  return false;
}
m_UsedCharset = tryDataCharset;
return true;
``` -/
def TryParseResult (tryDataCharset : Str) (doc : CXBMCTinyXML) : Bool × CXBMCTinyXML :=
  if doc.error then (false, doc.Clear.locationClear)
  else (true, { doc with m_UsedCharset := tryDataCharset })

/-- `CXBMCTinyXML::TryParse(data, tryDataCharset)`. -/
def TryParse (env : Collaborators) (data tryDataCharset : Str) (doc : CXBMCTinyXML) :
    Option (Bool × CXBMCTinyXML) :=
  if tryDataCharset = UTF8 then
    (InternalParse env data .TIXML_ENCODING_UTF8 doc).map
      (fun r => TryParseResult tryDataCharset r.2)
  else if tryDataCharset ≠ [] then
    let conv := env.ToUtf8 tryDataCharset data
    let doc1 := doc.call (.ToUtf8 tryDataCharset data)
    if !conv.1 || conv.2.isEmpty then some (false, doc1)
    else
      (InternalParse env conv.2 .TIXML_ENCODING_UTF8 doc1).map
        (fun r => TryParseResult tryDataCharset r.2)
  else
    (InternalParse env data .TIXML_ENCODING_LEGACY doc).map
      (fun r => TryParseResult tryDataCharset r.2)

/-- The warning of the three charset candidates after the suggested one:
```
if (!m_SuggestedCharset.empty())
  CLog::Log(LOGWARNING, "... charset was used instead of suggested charset ...");
else if (!detectedCharset.empty())
  CLog::Log(LOGWARNING, "... charset was used instead of detected charset ...");
```
(`withDetected` is false for the detected candidate, which has no `else` branch). -/
def warnUsed (withDetected : Bool) (detectedCharset : Str) (doc : CXBMCTinyXML) :
    CXBMCTinyXML :=
  if doc.m_SuggestedCharset ≠ [] then
    doc.call (.Log (.usedInsteadOfSuggested doc.m_UsedCharset doc.m_SuggestedCharset
      (logSource doc)))
  else if withDetected = true ∧ detectedCharset ≠ [] then
    doc.call (.Log (.usedInsteadOfDetected doc.m_UsedCharset detectedCharset (logSource doc)))
  else doc

/-- The warning of the fallback to the unknown encoding. -/
def warnUnknown (detectedCharset : Str) (doc : CXBMCTinyXML) : CXBMCTinyXML :=
  if doc.m_SuggestedCharset ≠ [] then
    doc.call (.Log (.unknownInsteadOfSuggested (logSource doc) doc.m_SuggestedCharset))
  else if detectedCharset ≠ [] then
    doc.call (.Log (.unknownInsteadOfDetected (logSource doc) detectedCharset))
  else doc

/-- The last statements of `Parse`, the fallback to the unknown encoding:
```
if (InternalParse(data, TIXML_ENCODING_UNKNOWN))
{
  ... (warning)
  return true;
}
return false;
``` -/
def ParseFromUnknown (env : Collaborators) (data detectedCharset : Str) (doc : CXBMCTinyXML) :
    Option (Bool × CXBMCTinyXML) :=
  (InternalParse env data .TIXML_ENCODING_UNKNOWN doc).bind fun r =>
  if r.1 then some (true, warnUnknown detectedCharset r.2) else some (false, r.2)

/-- `Parse` from the GUI charset on:
```
if (TryParse(data, g_langInfo.GetGuiCharSet()))
{
  ... (warning)
  return true;
}
```
and then the fallback. -/
def ParseFromGui (env : Collaborators) (data detectedCharset : Str) (doc : CXBMCTinyXML) :
    Option (Bool × CXBMCTinyXML) :=
  (TryParse env data env.GetGuiCharSet (doc.call .GetGuiCharSet)).bind fun r =>
  if r.1 then some (true, warnUsed true detectedCharset r.2)
  else ParseFromUnknown env data detectedCharset r.2

/-- `Parse` from the UTF-8 check on:
```
if (m_SuggestedCharset != "UTF-8" && detectedCharset != "UTF-8" && CUtf8Utils::isValidUtf8(data) &&
    TryParse(data, "UTF-8"))
{
  ... (warning)
  return true;
}
```
and then the GUI charset. -/
def ParseFromUtf8 (env : Collaborators) (data detectedCharset : Str) (doc : CXBMCTinyXML) :
    Option (Bool × CXBMCTinyXML) :=
  (if doc.m_SuggestedCharset ≠ UTF8 ∧ detectedCharset ≠ UTF8 then
    if env.isValidUtf8 data then TryParse env data UTF8 (doc.call (.isValidUtf8 data))
    else some (false, doc.call (.isValidUtf8 data))
   else some (false, doc)).bind fun r =>
  if r.1 then some (true, warnUsed true detectedCharset r.2)
  else ParseFromGui env data detectedCharset r.2

/-- `Parse` from the charset detection on:
```
std::string detectedCharset;
if (CCharsetDetection::DetectXmlEncoding(data, detectedCharset) && TryParse(data, detectedCharset))
{
  if (!m_SuggestedCharset.empty())
    CLog::Log(LOGWARNING, ...);
  return true;
}
```
and then the UTF-8 check. -/
def ParseFromDetected (env : Collaborators) (data : Str) (doc : CXBMCTinyXML) :
    Option (Bool × CXBMCTinyXML) :=
  let detectedCharset := (env.DetectXmlEncoding data).2
  (if (env.DetectXmlEncoding data).1 then
    TryParse env data detectedCharset (doc.call (.DetectXmlEncoding data))
   else some (false, doc.call (.DetectXmlEncoding data))).bind fun r =>
  if r.1 then some (true, warnUsed false detectedCharset r.2)
  else ParseFromUtf8 env data detectedCharset r.2

/-- `CXBMCTinyXML::Parse(data, encoding)`:
```
m_UsedCharset.clear();
if (encoding != TIXML_ENCODING_UNKNOWN)
{ // encoding != TIXML_ENCODING_UNKNOWN means "do not use m_SuggestedCharset and charset detection"
  m_SuggestedCharset.clear();
  if (encoding == TIXML_ENCODING_UTF8)
    m_UsedCharset = "UTF-8";
  return InternalParse(data, encoding);
}
if (!m_SuggestedCharset.empty() && TryParse(data, m_SuggestedCharset))
  return true;
```
and then the charset detection. -/
def Parse (env : Collaborators) (data : Str) (encoding : TiXmlEncoding) (doc0 : CXBMCTinyXML) :
    Option (Bool × CXBMCTinyXML) :=
  let doc := { doc0 with m_UsedCharset := [] }
  if encoding ≠ .TIXML_ENCODING_UNKNOWN then
    let doc := { doc with m_SuggestedCharset := [] }
    let doc := if encoding = .TIXML_ENCODING_UTF8 then { doc with m_UsedCharset := UTF8 } else doc
    InternalParse env data encoding doc
  else
    (if doc.m_SuggestedCharset ≠ [] then TryParse env data doc.m_SuggestedCharset doc
      else some (false, doc)).bind fun r =>
    if r.1 then some (true, r.2) else ParseFromDetected env data r.2

/-- `CXBMCTinyXML::Parse(data, dataCharset)`. -/
def ParseCharset (env : Collaborators) (data dataCharset : Str) (doc : CXBMCTinyXML) :
    Option (Bool × CXBMCTinyXML) :=
  Parse env data .TIXML_ENCODING_UNKNOWN { doc with m_SuggestedCharset := ToUpper dataCharset }

/-- `CXBMCTinyXML::LoadFile(_filename, encoding)`. -/
def LoadFile (env : Collaborators) (_filename : Str) (encoding : TiXmlEncoding)
    (doc0 : CXBMCTinyXML) : Option (Bool × CXBMCTinyXML) :=
  let doc : CXBMCTinyXML := { doc0 with value := _filename }
  let r := env.fileLoadFile doc.value
  let doc := doc.call (.fileLoadFile doc.value)
  if r.1 ≤ 0 then some (false, doc.SetError TIXML_ERROR_OPENING_FILE)
  else
    let doc := doc.Clear.locationClear
    let data := r.2
    (if encoding = .TIXML_ENCODING_UNKNOWN then
      ParseCharset env data (env.fileContentCharset doc.value)
        (doc.call (.fileGetProperty doc.value))
     else Parse env data encoding doc).map fun p =>
    if p.2.error then (false, p.2) else (true, p.2)

/-- `CXBMCTinyXML::LoadFile(_filename, documentCharset)`. -/
def LoadFileCharset (env : Collaborators) (_filename documentCharset : Str)
    (doc : CXBMCTinyXML) : Option (Bool × CXBMCTinyXML) :=
  LoadFile env _filename .TIXML_ENCODING_UNKNOWN
    { doc with m_SuggestedCharset := ToUpper documentCharset }

/-- A freshly constructed document (`CXBMCTinyXML()`), with nothing recorded. -/
def emptyDocument : CXBMCTinyXML :=
  { value := [], children := [], error := false, errorId := 0, location := (-1, -1),
    m_SuggestedCharset := [], m_UsedCharset := [], calls := [] }

/-! ## The candidate chain of the specification -/

/-- A charset candidate: a charset name, or the raw/unknown fallback. -/
inductive Candidate where
  | charset (name : Str)
  | raw
  deriving DecidableEq, Repr

/-- The charset a candidate stands for; the raw fallback claims none. -/
def Candidate.charsetName : Candidate → Str
  | .charset name => name
  | .raw => []

/-- The attempt of one candidate: `TryParse` under a charset, `InternalParse` with the
unknown encoding for the raw fallback. -/
def attempt (env : Collaborators) (data : Str) : Candidate → CXBMCTinyXML →
    Option (Bool × CXBMCTinyXML)
  | .charset name, doc => TryParse env data name doc
  | .raw, doc => InternalParse env data .TIXML_ENCODING_UNKNOWN doc

/-- The candidates in the order of the specification: the suggested charset (if not
empty), the detected charset (if the detection succeeds), UTF-8 (if the data is valid
UTF-8 and UTF-8 is neither the suggested nor the detected charset), the GUI charset,
the raw fallback. -/
def candidateChain (env : Collaborators) (data suggested : Str) : List Candidate :=
  (if suggested ≠ [] then [Candidate.charset suggested] else []) ++
  (if (env.DetectXmlEncoding data).1 then [Candidate.charset (env.DetectXmlEncoding data).2]
    else []) ++
  (if suggested ≠ UTF8 ∧ (env.DetectXmlEncoding data).2 ≠ UTF8 ∧ env.isValidUtf8 data = true
    then [Candidate.charset UTF8] else []) ++
  [Candidate.charset env.GetGuiCharSet, Candidate.raw]

/-- The outcome of running a chain of candidates. -/
structure ChainResult where
  ok : Bool
  doc : CXBMCTinyXML
  tried : List Candidate
  deriving DecidableEq, Repr

/-- Runs the candidates in order on the document, stops at the first attempt that
succeeds, and fails when none does; `tried` lists the candidates attempted. -/
def runChain (env : Collaborators) (data : Str) : List Candidate → CXBMCTinyXML →
    Option ChainResult
  | [], doc => some ⟨false, doc, []⟩
  | c :: cs, doc =>
    (attempt env data c doc).bind fun r =>
    if r.1 then some ⟨true, r.2, [c]⟩
    else (runChain env data cs r.2).map fun q => ⟨q.ok, q.doc, c :: q.tried⟩

/-- The calls that belong to an attempt: conversions and runs of the parser. -/
def Call.isAttempt : Call → Bool
  | .ToUtf8 _ _ => true
  | .TiXmlParse _ _ => true
  | _ => false

/-- The conversions and parser runs a document has recorded. -/
def CXBMCTinyXML.attempts (doc : CXBMCTinyXML) : List Call :=
  doc.calls.filter Call.isAttempt

/-! ## An example environment -/

/-- A parser for the examples.  As TinyXML does, it clears the error first and links
the nodes it reads to the document: `<a/>` is read as one element; `<a>` leaves the
unfinished element in the document and the error `TIXML_ERROR_READING_END_TAG` (8);
the empty text gives `TIXML_ERROR_DOCUMENT_EMPTY` (12); any other text is refused with
`TIXML_ERROR` (1). -/
def exampleParse (text : Str) (_encoding : TiXmlEncoding) (base : TiXmlDocument) :
    Bool × TiXmlDocument :=
  if text = "<a/>".toList then
    (true, { base with children := base.children ++ [⟨"a".toList⟩], error := false, errorId := 0 })
  else if text = "<a>".toList then
    (false, { base with children := base.children ++ [⟨"a".toList⟩], error := true, errorId := 8 })
  else if text = [] then
    (false, { base with error := true, errorId := 12 })
  else
    (false, { base with error := true, errorId := 1 })

/-- An environment for the examples: no charset is detected, `CP1252` and
`WINDOWS-1251` convert (ASCII) data unchanged and no other charset is known, all data
counts as valid UTF-8, the GUI charset is `CP1252`, and the only file is `a.xml`,
holding `<a/>`, without a content charset. -/
def exampleEnv : Collaborators where
  TiXmlParse := exampleParse
  DetectXmlEncoding := fun _ => (false, [])
  ToUtf8 := fun charset data =>
    if charset = "CP1252".toList ∨ charset = "WINDOWS-1251".toList then (true, data)
    else (false, [])
  isValidUtf8 := fun _ => true
  GetGuiCharSet := "CP1252".toList
  fileLoadFile := fun name => if name = "a.xml".toList then (4, "<a/>".toList) else (-1, [])
  fileContentCharset := fun _ => []

/-- The example environment with the file served with the content charset
`windows-1251`. -/
def exampleEnvCharset : Collaborators :=
  { exampleEnv with fileContentCharset := fun _ => "windows-1251".toList }

/-- Two documents that agree on everything but the recorded calls that are not
attempts (detection, validation, GUI charset, log, file access). -/
def Same (d1 d2 : CXBMCTinyXML) : Prop :=
  d1.toTiXmlDocument = d2.toTiXmlDocument ∧ d1.m_SuggestedCharset = d2.m_SuggestedCharset ∧
    d1.m_UsedCharset = d2.m_UsedCharset ∧ d1.attempts = d2.attempts

/-- A result of `Parse` and a result of the chain that agree on the return value and on
the document. -/
def Agree (p : Option (Bool × CXBMCTinyXML)) (c : Option ChainResult) : Prop :=
  ∃ r q, p = some r ∧ c = some q ∧ r.1 = q.ok ∧ Same r.2 q.doc

/-- The first collaborator call of `TryParse` under a non-empty charset: the parser on
the repaired data for UTF-8, the conversion otherwise. -/
def firstAttemptCall (charset data repaired : Str) : Call :=
  if charset = UTF8 then Call.TiXmlParse repaired .TIXML_ENCODING_UTF8
  else Call.ToUtf8 charset data

/-- The second document has recorded the calls of the first and possibly more. -/
def Grows (d1 d2 : CXBMCTinyXML) : Prop := ∃ rest, d2.calls = d1.calls ++ rest

/-- Copies a text, decoding each `+ACY-` (the UTF-7 form of `&`) to `&`; `skip` is the
number of characters of such a form still to pass over. -/
def decodeUtf7Amp : Nat → Str → Str
  | _, [] => []
  | skip + 1, _ :: t => decodeUtf7Amp skip t
  | 0, c :: t =>
    if startsWith "+ACY-".toList (c :: t) then '&' :: decodeUtf7Amp 4 t
    else c :: decodeUtf7Amp 0 t

/-- The example environment with a converter for `UTF-7` that decodes `+ACY-` to `&`
and copies every other character. -/
def exampleEnvUtf7 : Collaborators :=
  { exampleEnv with
    ToUtf8 := fun charset data =>
      if charset = "UTF-7".toList then (true, decodeUtf7Amp 0 data) else (false, []) }

/-- The charset candidates of the chain: all the candidates but the raw fallback. -/
def charsetCandidates (env : Collaborators) (data suggested : Str) : List Candidate :=
  (if suggested ≠ [] then [Candidate.charset suggested] else []) ++
  (if (env.DetectXmlEncoding data).1 then [Candidate.charset (env.DetectXmlEncoding data).2]
    else []) ++
  (if suggested ≠ UTF8 ∧ (env.DetectXmlEncoding data).2 ≠ UTF8 ∧ env.isValidUtf8 data = true
    then [Candidate.charset UTF8] else []) ++
  [Candidate.charset env.GetGuiCharSet]

/-- The suggested charset as a chain of candidates: one candidate, or none when no
charset is suggested. -/
def suggestedCandidates (suggested : Str) : List Candidate :=
  if suggested ≠ [] then [Candidate.charset suggested] else []

/-- The calls that write a warning to the log. -/
def Call.isLog : Call → Bool
  | .Log _ => true
  | _ => false

/-- The warnings a document has recorded. -/
def CXBMCTinyXML.logged (doc : CXBMCTinyXML) : List Call :=
  doc.calls.filter Call.isLog

/-- The first collaborator call of `TryParse` under any charset: for the empty charset
the parser on the repaired data with the legacy encoding. -/
def tryParseFirstCall (charset data repaired : Str) : Call :=
  if charset = [] then Call.TiXmlParse repaired .TIXML_ENCODING_LEGACY
  else firstAttemptCall charset data repaired

/-- A result `p` of `Parse` from some statement on and a result `c` of a chain of
candidates run from the same document: when the chain succeeds, `p` is that success;
when every candidate of the chain fails, `p` is the rest `K` of `Parse`, run on the
document the chain left, with no warning logged since `d0`. -/
def AgreeUpTo (K : CXBMCTinyXML → Option (Bool × CXBMCTinyXML)) (d0 : CXBMCTinyXML)
    (p : Option (Bool × CXBMCTinyXML)) (c : Option ChainResult) : Prop :=
  ∃ q, c = some q ∧
    (q.ok = true → ∃ r, p = some r ∧ r.1 = true ∧ Same r.2 q.doc) ∧
    (q.ok = false → ∃ d, Same d q.doc ∧ d.logged = d0.logged ∧ p = K d)

/-- The example environment for the raw fallback: no data counts as valid UTF-8 and no
charset converts, so only the raw parse can succeed. -/
def exampleEnvRaw : Collaborators :=
  { exampleEnv with
    isValidUtf8 := fun _ => false
    ToUtf8 := fun _ _ => (false, []) }

/-- The example environment with a detector that reports `UTF-8` for all data. -/
def exampleEnvDetectUtf8 : Collaborators :=
  { exampleEnv with DetectXmlEncoding := fun _ => (true, UTF8) }

/-- The example environment with a detector that reports `KOI8-R` for all data, a
charset the converter does not know. -/
def exampleEnvDetectKoi8 : Collaborators :=
  { exampleEnv with DetectXmlEncoding := fun _ => (true, "KOI8-R".toList) }

/-! ## Sequences of calls -/

/-- A call of one of the public loading operations of the document. -/
inductive Operation where
  | Parse (data : Str) (encoding : TiXmlEncoding)
  | ParseCharset (data dataCharset : Str)
  | LoadFile (filename : Str) (encoding : TiXmlEncoding)
  | LoadFileCharset (filename documentCharset : Str)
  deriving DecidableEq, Repr

/-- Runs one operation on a document. -/
def Operation.run (env : Collaborators) : Operation → CXBMCTinyXML →
    Option (Bool × CXBMCTinyXML)
  | .Parse data encoding, doc => XBMCTinyXML.Parse env data encoding doc
  | .ParseCharset data dataCharset, doc => XBMCTinyXML.ParseCharset env data dataCharset doc
  | .LoadFile filename encoding, doc => XBMCTinyXML.LoadFile env filename encoding doc
  | .LoadFileCharset filename documentCharset, doc =>
    XBMCTinyXML.LoadFileCharset env filename documentCharset doc

/-- A parser for the examples that returns NULL without recording an error: on the text
`<?xml`, a declaration that never closes, it links the declaration node and returns NULL
with the error flag clear (in TinyXML `TiXmlDeclaration::Parse` reaches the end of the
text and returns 0 without a call of `SetError`); any other text is read as by
`exampleParse`. -/
def exampleParseDeclaration (text : Str) (encoding : TiXmlEncoding) (base : TiXmlDocument) :
    Bool × TiXmlDocument :=
  if text = "<?xml".toList then
    (false, { base with children := base.children ++ [⟨[]⟩], error := false, errorId := 0 })
  else exampleParse text encoding base

/-- The example environment for the raw fallback with the parser that knows the
unfinished declaration. -/
def exampleEnvDeclaration : Collaborators :=
  { exampleEnvRaw with TiXmlParse := exampleParseDeclaration }

/-! # Theorems -/

/-! ## Lemmas on the matcher -/

theorem mem_run_lit (c : Char) (s t : Str) : t ∈ (Re.lit c).run s ↔ s = c :: t := by
  cases s with
  | nil => simp [Re.run]
  | cons x xs =>
    by_cases h : x = c
    · simp [Re.run, h, eq_comm]
    · simp [Re.run, h]

theorem mem_run_cat (a b : Re) (s t : Str) :
    t ∈ (Re.cat a b).run s ↔ ∃ u, u ∈ a.run s ∧ t ∈ b.run u := by
  simp [Re.run, List.mem_flatMap]

theorem mem_run_alt (a b : Re) (s t : Str) :
    t ∈ (Re.alt a b).run s ↔ t ∈ a.run s ∨ t ∈ b.run s := by
  simp [Re.run]

theorem mem_run_word (w s t : Str) : t ∈ (Re.word w).run s ↔ s = w ++ t := by
  induction w generalizing s with
  | nil => simp [Re.word, Re.run, eq_comm]
  | cons c cs ih =>
    simp only [Re.word, mem_run_cat, mem_run_lit, ih]
    constructor
    · rintro ⟨u, rfl, rfl⟩; rfl
    · intro h; exact ⟨cs ++ t, by simpa using h, rfl⟩

theorem mem_run_cls (rs : List (Char × Char)) (s t : Str) :
    t ∈ (Re.cls rs).run s ↔
      ∃ x, rs.any (fun r => decide (r.1 ≤ x ∧ x ≤ r.2)) = true ∧ s = x :: t := by
  cases s with
  | nil => simp [Re.run]
  | cons x xs =>
    by_cases h : rs.any (fun r => decide (r.1 ≤ x ∧ x ≤ r.2)) = true
    · simp only [Re.run, h, if_true, List.mem_singleton, List.cons.injEq]
      constructor
      · rintro rfl; exact ⟨x, h, rfl, rfl⟩
      · rintro ⟨y, _, rfl, rfl⟩; rfl
    · simp only [Re.run, h, List.cons.injEq]
      constructor
      · intro h0; simp at h0
      · rintro ⟨y, hy, rfl, rfl⟩; exact absurd hy h

theorem mem_iterExact_cls (rs : List (Char × Char)) (n : Nat) (s t : Str) :
    t ∈ iterExact (fun u => (Re.cls rs).run u) n s ↔
      ∃ ds : Str, ds.length = n ∧
        (∀ d ∈ ds, rs.any (fun r => decide (r.1 ≤ d ∧ d ≤ r.2)) = true) ∧ s = ds ++ t := by
  induction n generalizing s with
  | zero =>
    simp only [iterExact, List.mem_singleton]
    constructor
    · rintro rfl; exact ⟨[], rfl, by simp, rfl⟩
    · rintro ⟨ds, hl, -, rfl⟩
      rw [List.length_eq_zero] at hl; subst hl; rfl
  | succ n ih =>
    simp only [iterExact, List.mem_flatMap, mem_run_cls, ih]
    constructor
    · rintro ⟨u, ⟨x, hx, rfl⟩, ds, hl, hds, rfl⟩
      refine ⟨x :: ds, by simp [hl], ?_, rfl⟩
      intro d hd
      rcases List.mem_cons.1 hd with rfl | hd
      · exact hx
      · exact hds d hd
    · rintro ⟨ds, hl, hds, rfl⟩
      cases ds with
      | nil => simp at hl
      | cons x ds =>
        refine ⟨ds ++ t, ⟨x, hds x (by simp), rfl⟩, ds, by simpa using hl, ?_, rfl⟩
        intro d hd; exact hds d (by simp [hd])

theorem mem_iterUpTo_cls (rs : List (Char × Char)) (n : Nat) (s t : Str) :
    t ∈ iterUpTo (fun u => (Re.cls rs).run u) n s ↔
      ∃ ds : Str, ds.length ≤ n ∧
        (∀ d ∈ ds, rs.any (fun r => decide (r.1 ≤ d ∧ d ≤ r.2)) = true) ∧ s = ds ++ t := by
  induction n generalizing s with
  | zero =>
    simp only [iterUpTo, List.mem_singleton]
    constructor
    · rintro rfl; exact ⟨[], by simp, by simp, rfl⟩
    · rintro ⟨ds, hl, -, rfl⟩
      have : ds = [] := List.length_eq_zero.1 (by omega)
      subst this; rfl
  | succ n ih =>
    simp only [iterUpTo, List.mem_cons, List.mem_flatMap, mem_run_cls, ih]
    constructor
    · rintro (rfl | ⟨u, ⟨x, hx, rfl⟩, ds, hl, hds, rfl⟩)
      · exact ⟨[], by simp, by simp, rfl⟩
      · refine ⟨x :: ds, by simp [hl], ?_, rfl⟩
        intro d hd
        rcases List.mem_cons.1 hd with rfl | hd
        · exact hx
        · exact hds d hd
    · rintro ⟨ds, hl, hds, rfl⟩
      cases ds with
      | nil => left; rfl
      | cons x ds =>
        right
        refine ⟨ds ++ t, ⟨x, hds x (by simp), rfl⟩, ds, by simpa using hl, ?_, rfl⟩
        intro d hd; exact hds d (by simp [hd])

theorem mem_run_rep_cls (rs : List (Char × Char)) (lo hi : Nat) (hle : lo ≤ hi) (s t : Str) :
    t ∈ (Re.rep lo hi (Re.cls rs)).run s ↔
      ∃ ds : Str, lo ≤ ds.length ∧ ds.length ≤ hi ∧
        (∀ d ∈ ds, rs.any (fun r => decide (r.1 ≤ d ∧ d ≤ r.2)) = true) ∧ s = ds ++ t := by
  show t ∈ (iterExact (fun u => (Re.cls rs).run u) lo s).flatMap
      (iterUpTo (fun u => (Re.cls rs).run u) (hi - lo)) ↔ _
  simp only [List.mem_flatMap, mem_iterExact_cls, mem_iterUpTo_cls]
  constructor
  · rintro ⟨u, ⟨d1, hl1, h1, rfl⟩, d2, hl2, h2, rfl⟩
    refine ⟨d1 ++ d2, by simp; omega, by simp; omega, ?_, by simp⟩
    intro d hd
    rcases List.mem_append.1 hd with hd | hd
    · exact h1 d hd
    · exact h2 d hd
  · rintro ⟨ds, hlo, hhi, hds, rfl⟩
    refine ⟨ds.drop lo ++ t, ⟨ds.take lo, by simp [hlo], ?_, ?_⟩, ds.drop lo, by simp; omega, ?_, rfl⟩
    · intro d hd; exact hds d (List.mem_of_mem_take hd)
    · rw [← List.append_assoc, List.take_append_drop]
    · intro d hd; exact hds d (List.mem_of_mem_drop hd)

theorem self_mem_iterUpTo (f : Str → List Str) (n : Nat) (s : Str) : s ∈ iterUpTo f n s := by
  cases n <;> simp [iterUpTo]

theorem decClass_any (d : Char) :
    [('0', '9')].any (fun r => decide (r.1 ≤ d ∧ d ≤ r.2)) = true ↔ IsDecDigit d := by
  simp [IsDecDigit]

theorem hexClass_any (d : Char) :
    [('a', 'f'), ('A', 'F'), ('0', '9')].any (fun r => decide (r.1 ≤ d ∧ d ≤ r.2)) = true ↔
      IsHexDigit d := by
  simp [IsHexDigit]

/-- The bodies the alternation of the pattern matches are the entity bodies. -/
theorem mem_run_body (s t : Str) :
    t ∈ (Re.alt (Re.word "amp".toList)
        (.alt (Re.word "lt".toList)
          (.alt (Re.word "gt".toList)
            (.alt (Re.word "quot".toList)
              (.alt (Re.word "apos".toList)
                (.alt (.cat (.lit '#') (.cat (.lit 'x') (.rep 1 4 hexClass)))
                  (.cat (.lit '#') (.rep 1 5 decClass)))))))).run s ↔
      ∃ b, EntityBody b ∧ s = b ++ t := by
  simp only [mem_run_alt, mem_run_word, mem_run_cat, mem_run_lit, hexClass, decClass,
    mem_run_rep_cls _ 1 4 (by decide), mem_run_rep_cls _ 1 5 (by decide), decClass_any,
    hexClass_any]
  constructor
  · rintro (h | h | h | h | h | ⟨u, rfl, v, rfl, hs, h1, h2, h3, rfl⟩ | ⟨u, rfl, ds, h1, h2, h3, rfl⟩)
    · exact ⟨_, Or.inl rfl, h⟩
    · exact ⟨_, Or.inr (Or.inl rfl), h⟩
    · exact ⟨_, Or.inr (Or.inr (Or.inl rfl)), h⟩
    · exact ⟨_, Or.inr (Or.inr (Or.inr (Or.inl rfl))), h⟩
    · exact ⟨_, Or.inr (Or.inr (Or.inr (Or.inr (Or.inl rfl)))), h⟩
    · exact ⟨'#' :: 'x' :: hs,
        Or.inr (Or.inr (Or.inr (Or.inr (Or.inr (Or.inr ⟨hs, h1, h2, h3, rfl⟩))))), rfl⟩
    · exact ⟨'#' :: ds,
        Or.inr (Or.inr (Or.inr (Or.inr (Or.inr (Or.inl ⟨ds, h1, h2, h3, rfl⟩))))), rfl⟩
  · rintro ⟨b, hb, rfl⟩
    rcases hb with rfl | rfl | rfl | rfl | rfl | ⟨ds, h1, h2, h3, rfl⟩ | ⟨hs, h1, h2, h3, rfl⟩
    · exact Or.inl rfl
    · exact Or.inr (Or.inl rfl)
    · exact Or.inr (Or.inr (Or.inl rfl))
    · exact Or.inr (Or.inr (Or.inr (Or.inl rfl)))
    · exact Or.inr (Or.inr (Or.inr (Or.inr (Or.inl rfl))))
    · exact Or.inr (Or.inr (Or.inr (Or.inr (Or.inr (Or.inr
        ⟨_, rfl, ds, h1, h2, h3, rfl⟩)))))
    · exact Or.inr (Or.inr (Or.inr (Or.inr (Or.inr (Or.inl
        ⟨_, rfl, _, rfl, hs, h1, h2, h3, rfl⟩)))))

theorem entityBody_length_le {b : Str} (hb : EntityBody b) : b.length ≤ 6 := by
  rcases hb with rfl | rfl | rfl | rfl | rfl | ⟨ds, -, h2, -, rfl⟩ | ⟨hs, -, h2, -, rfl⟩ <;>
    simp <;> omega

theorem decDigit_ne_amp {d : Char} (h : IsDecDigit d) : d ≠ '&' := by
  rintro rfl; unfold IsDecDigit at h; revert h; decide

theorem hexDigit_ne_amp {d : Char} (h : IsHexDigit d) : d ≠ '&' := by
  rintro rfl; unfold IsHexDigit at h; revert h; decide

theorem entityBody_amp_not_mem {b : Str} (hb : EntityBody b) : '&' ∉ b := by
  rcases hb with rfl | rfl | rfl | rfl | rfl | ⟨ds, -, -, h3, rfl⟩ | ⟨hs, -, -, h3, rfl⟩
  · decide
  · decide
  · decide
  · decide
  · decide
  · intro h
    rcases List.mem_cons.1 h with h | h
    · exact absurd h (by decide)
    · exact decDigit_ne_amp (h3 _ h) rfl
  · intro h
    rcases List.mem_cons.1 h with h | h
    · exact absurd h (by decide)
    · rcases List.mem_cons.1 h with h | h
      · exact absurd h (by decide)
      · exact hexDigit_ne_amp (h3 _ h) rfl

theorem exists_mem_iff_isEmpty {α : Type} (l : List α) : (!l.isEmpty) = true ↔ ∃ r, r ∈ l := by
  cases l <;> simp

/-- The pattern matches the window at an `&` exactly when a legal entity form follows. -/
theorem beginsEntity_iff (t : Str) : beginsEntity ('&' :: t) = true ↔ LegalAfterAmp t := by
  unfold beginsEntity LegalAfterAmp
  rw [exists_mem_iff_isEmpty]
  have hw : ('&' :: t).take MAX_ENTITY_LENGTH = '&' :: t.take 7 := rfl
  rw [hw]
  unfold entityPattern
  simp only [mem_run_cat, mem_run_lit, mem_run_body]
  constructor
  · rintro ⟨r, u, hu, v, ⟨b, hb, rfl⟩, w, rfl, -⟩
    refine ⟨b, hb, ?_⟩
    have h7 : t.take 7 = b ++ ';' :: w := by
      simpa using hu
    refine ⟨w ++ t.drop 7, ?_⟩
    calc b ++ [';'] ++ (w ++ t.drop 7) = (b ++ ';' :: w) ++ t.drop 7 := by simp
      _ = t := by rw [← h7, List.take_append_drop]
  · rintro ⟨b, hb, rest, rfl⟩
    have hl := entityBody_length_le hb
    refine ⟨rest.take (6 - b.length), b ++ ';' :: rest.take (6 - b.length), ?_, _, ⟨b, hb, rfl⟩,
      _, rfl, self_mem_iterUpTo _ _ _⟩
    have : (b ++ [';'] ++ rest).take 7 = b ++ ';' :: rest.take (6 - b.length) := by
      rw [List.append_assoc, List.take_append_eq_append_take]
      rw [List.take_of_length_le (by omega)]
      simp only [List.singleton_append, List.append_cancel_left_eq]
      have : 7 - b.length = (6 - b.length) + 1 := by omega
      rw [this, List.take_succ_cons]
    rw [this]

/-! ## The loop computes the reference rewrite -/

theorem indexOfChar_of_not_mem {c : Char} {s : Str} (h : c ∉ s) : indexOfChar c s = none := by
  induction s with
  | nil => rfl
  | cons x xs ih =>
    have hx : x ≠ c := fun e => h (by simp [e])
    have hxs : c ∉ xs := fun e => h (by simp [e])
    simp [indexOfChar, hx, ih hxs]

theorem indexOfChar_append {c : Char} {r1 : Str} (r2 : Str) (h : c ∉ r1) :
    indexOfChar c (r1 ++ c :: r2) = some r1.length := by
  induction r1 with
  | nil => simp [indexOfChar]
  | cons x xs ih =>
    have hx : x ≠ c := fun e => h (by simp [e])
    have hxs : c ∉ xs := fun e => h (by simp [e])
    simp [indexOfChar, hx, ih hxs]

theorem split_first (c : Char) (s : Str) :
    c ∉ s ∨ ∃ r1 r2, s = r1 ++ c :: r2 ∧ c ∉ r1 := by
  induction s with
  | nil => left; simp
  | cons x xs ih =>
    by_cases hx : x = c
    · right; exact ⟨[], xs, by simp [hx], by simp⟩
    · rcases ih with h | ⟨r1, r2, rfl, h⟩
      · left
        simp only [List.mem_cons, not_or]
        exact ⟨fun e => hx e.symm, h⟩
      · right
        refine ⟨x :: r1, r2, rfl, ?_⟩
        simp only [List.mem_cons, not_or]
        exact ⟨fun e => hx e.symm, h⟩

theorem refRepair_of_not_mem {s : Str} (h : '&' ∉ s) : refRepair s = s := by
  induction s with
  | nil => rfl
  | cons x xs ih =>
    have hx : x ≠ '&' := fun e => h (by simp [e])
    have hxs : '&' ∉ xs := fun e => h (by simp [e])
    simp [refRepair, hx, ih hxs]

theorem refRepair_append {p : Str} (s : Str) (h : '&' ∉ p) :
    refRepair (p ++ s) = p ++ refRepair s := by
  induction p with
  | nil => rfl
  | cons x xs ih =>
    have hx : x ≠ '&' := fun e => h (by simp [e])
    have hxs : '&' ∉ xs := fun e => h (by simp [e])
    simp [refRepair, hx, ih hxs]

theorem amp_not_mem_inserted (rest : Str) : '&' ∉ inserted rest := by
  unfold inserted
  split <;> decide

theorem refRepair_amp (rest : Str) :
    refRepair ('&' :: rest) = '&' :: (inserted rest ++ refRepair rest) := by
  unfold inserted
  by_cases h : beginsEntity ('&' :: rest) = true
  · simp [refRepair, h]
  · simp [refRepair, h]

theorem loop_body_data (done rest : Str) :
    (if RegFind entityPattern (done ++ '&' :: rest) done.length MAX_ENTITY_LENGTH < 0
      then insert (done ++ '&' :: rest) (done.length + 1) "amp;".toList
      else done ++ '&' :: rest) = (done ++ '&' :: inserted rest) ++ rest := by
  have hd : (done ++ '&' :: rest).drop done.length = '&' :: rest := by simp
  have hlen : ¬ (done ++ '&' :: rest).length < done.length := by simp
  unfold RegFind inserted beginsEntity
  rw [hd]
  simp only [hlen, if_false]
  by_cases h : (entityPattern.run (('&' :: rest).take MAX_ENTITY_LENGTH)).isEmpty = true
  · have h1 : ((done ++ '&' :: rest).take (done.length + 1)) = done ++ ['&'] := by
      rw [List.take_append_eq_append_take]; simp
    have h2 : ((done ++ '&' :: rest).drop (done.length + 1)) = rest := by
      rw [List.drop_append_eq_append_drop]; simp
    simp [h, insert, h1, h2]
  · simp only [h, if_false, Bool.not_false, if_true]
    have : ¬ ((done.length : Int) < 0) := by omega
    simp [this]

theorem find_next (pre rest : Str) :
    find (pre ++ rest) '&' pre.length = (indexOfChar '&' rest).map (· + pre.length) := by
  simp [find]

theorem repairLoop_spec (fuel : Nat) : ∀ (done rest : Str), rest.count '&' < fuel →
    repairLoop fuel (done ++ '&' :: rest) done.length =
      some (done ++ refRepair ('&' :: rest)) := by
  induction fuel with
  | zero => intro done rest h; omega
  | succ fuel ih =>
    intro done rest h
    unfold repairLoop
    simp only []
    rw [loop_body_data]
    rw [refRepair_amp]
    have hI := amp_not_mem_inserted rest
    generalize inserted rest = ins at hI ⊢
    have hl : done.length + 1 = (done ++ ['&']).length := by simp
    have e0 : (done ++ '&' :: ins) ++ rest = (done ++ ['&']) ++ (ins ++ rest) := by simp
    rw [e0, hl, find_next]
    rcases split_first '&' rest with hn | ⟨r1, r2, rfl, hn⟩
    · have hn2 : '&' ∉ ins ++ rest := by
        simp only [List.mem_append, not_or]; exact ⟨hI, hn⟩
      rw [indexOfChar_of_not_mem hn2, refRepair_of_not_mem hn]
      simp
    · have hn2 : '&' ∉ ins ++ r1 := by
        simp only [List.mem_append, not_or]; exact ⟨hI, hn⟩
      have e3 : ins ++ (r1 ++ '&' :: r2) = (ins ++ r1) ++ '&' :: r2 := by simp
      rw [e3, indexOfChar_append r2 hn2]
      simp only [Option.map_some']
      have h2 : r2.count '&' < fuel := by
        simp at h; omega
      have := ih ((done ++ '&' :: ins) ++ r1) r2 h2
      have e1 : (done ++ ['&']) ++ ((ins ++ r1) ++ '&' :: r2) =
          ((done ++ '&' :: ins) ++ r1) ++ '&' :: r2 := by simp
      have e2 : (ins ++ r1).length + (done ++ ['&']).length =
          ((done ++ '&' :: ins) ++ r1).length := by simp; omega
      rw [e1, e2, this, refRepair_append _ hn]
      simp

/-- The preprocessing always produces a text, and it is the reference rewrite. -/
theorem entityRepair_eq (rawdata : Str) : entityRepair rawdata = some (refRepair rawdata) := by
  unfold entityRepair
  have h0 := find_next [] rawdata
  simp only [List.nil_append, List.length_nil, Nat.add_zero] at h0
  rw [h0]
  rcases split_first '&' rawdata with hn | ⟨r1, r2, rfl, hn⟩
  · rw [indexOfChar_of_not_mem hn, refRepair_of_not_mem hn]
    simp
  · rw [indexOfChar_append r2 hn]
    simp only [Option.map_some']
    have hc : r2.count '&' < (r1 ++ '&' :: r2).length := by
      have := List.count_le_length '&' r2
      simp; omega
    rw [repairLoop_spec _ r1 r2 hc, refRepair_append _ hn]

/-! ## Every `&` of the rewrite is legal, and legal text is a fixed point -/

theorem allAmpLegal_iff (s : Str) :
    AllAmpLegal s ↔ ∀ pre post, s = pre ++ '&' :: post → LegalAfterAmp post := by
  induction s with
  | nil => simp [AllAmpLegal]
  | cons c t ih =>
    simp only [AllAmpLegal, ih]
    constructor
    · rintro ⟨h1, h2⟩ pre post e
      cases pre with
      | nil =>
        simp only [List.nil_append, List.cons.injEq] at e
        obtain ⟨rfl, rfl⟩ := e
        exact h1 rfl
      | cons x pre =>
        simp only [List.cons_append, List.cons.injEq] at e
        exact h2 pre post e.2
    · intro h
      refine ⟨?_, ?_⟩
      · rintro rfl; exact h [] t rfl
      · intro pre post e
        exact h (c :: pre) post (by simp [e])

theorem legalAfterAmp_refRepair {t : Str} (h : LegalAfterAmp t) :
    LegalAfterAmp (refRepair t) := by
  obtain ⟨b, hb, r, rfl⟩ := h
  refine ⟨b, hb, refRepair r, ?_⟩
  have hn : '&' ∉ b ++ [';'] := by
    simp only [List.mem_append, List.mem_singleton, not_or]
    exact ⟨entityBody_amp_not_mem hb, by decide⟩
  rw [refRepair_append _ hn]

theorem legalAfterAmp_amp (t : Str) : LegalAfterAmp ('a' :: 'm' :: 'p' :: ';' :: t) :=
  ⟨"amp".toList, Or.inl rfl, t, rfl⟩

theorem allAmpLegal_refRepair (s : Str) : AllAmpLegal (refRepair s) := by
  induction s with
  | nil => simp [refRepair, AllAmpLegal]
  | cons c t ih =>
    by_cases hc : c = '&'
    · subst hc
      by_cases hb : beginsEntity ('&' :: t) = true
      · simp only [refRepair, hb, if_true, AllAmpLegal]
        exact ⟨fun _ => legalAfterAmp_refRepair ((beginsEntity_iff t).1 hb), ih⟩
      · simp only [refRepair, hb, if_true, AllAmpLegal]
        refine ⟨fun _ => legalAfterAmp_amp _, ?_, ?_, ?_, ?_, ih⟩ <;>
          exact fun e => absurd e (by decide)
    · have e : refRepair (c :: t) = c :: refRepair t := by simp [refRepair, hc]
      rw [e]
      exact ⟨fun e => absurd e hc, ih⟩

theorem refRepair_of_allAmpLegal {s : Str} (h : AllAmpLegal s) : refRepair s = s := by
  induction s with
  | nil => rfl
  | cons c t ih =>
    obtain ⟨h1, h2⟩ := h
    by_cases hc : c = '&'
    · subst hc
      have hb : beginsEntity ('&' :: t) = true := (beginsEntity_iff t).2 (h1 rfl)
      simp [refRepair, hb, ih h2]
    · simp [refRepair, hc, ih h2]

theorem beginsEntity_window (t : Str) :
    beginsEntity ('&' :: t) = beginsEntity (('&' :: t).take MAX_ENTITY_LENGTH) := by
  unfold beginsEntity
  rw [List.take_take]
  simp

/-! ## Decoding the repaired text -/

theorem takeWhile_digits (p : Char → Bool) (ds r : Str) (h : ∀ d ∈ ds, p d = true)
    (hs : p ';' = false) : (ds ++ ';' :: r).takeWhile p = ds := by
  rw [List.takeWhile_append_of_pos h, List.takeWhile_cons_of_neg (by simp [hs])]
  simp

theorem getElem?_semicolon (pre r : Str) (n : Nat) (h : n = pre.length) :
    (pre ++ ';' :: r)[n]? = some ';' := by
  subst h
  rw [List.getElem?_append_right (le_refl _)]
  simp

theorem decDigit_ne_x {d : Char} (h : IsDecDigit d) : d ≠ 'x' := by
  rintro rfl; unfold IsDecDigit at h; revert h; decide

/-- The reference a legal entity form denotes does not depend on what follows it. -/
theorem entityAt_body {b : Str} (hb : EntityBody b) :
    ∃ v, ∀ r, entityAt (b ++ ';' :: r) = some (v, b.length + 1) := by
  rcases hb with rfl | rfl | rfl | rfl | rfl | ⟨ds, h1, h2, h3, rfl⟩ | ⟨hs, h1, h2, h3, rfl⟩
  · exact ⟨_, fun r => rfl⟩
  · exact ⟨_, fun r => rfl⟩
  · exact ⟨_, fun r => rfl⟩
  · exact ⟨_, fun r => rfl⟩
  · exact ⟨_, fun r => rfl⟩
  · refine ⟨digitsValue 10 ds, fun r => ?_⟩
    cases ds with
    | nil => simp at h1
    | cons d ds =>
      have hx : d ≠ 'x' := decDigit_ne_x (h3 d (by simp))
      have htw : (d :: (ds ++ ';' :: r)).takeWhile (fun c => decide (IsDecDigit c)) = d :: ds :=
        takeWhile_digits _ (d :: ds) r (by simpa using h3) (by decide)
      have hne : ¬ ('x' = d) := fun e => hx e.symm
      simp only [entityAt, String.toList, List.cons_append, startsWith, hne, decide_False,
        Bool.false_and, Bool.and_false, decide_True, Bool.true_and, Bool.and_self,
        List.drop_succ_cons, List.drop_zero, htw]
      simp
      exact getElem?_semicolon ('#' :: d :: ds) r _ (by simp; omega)
  · refine ⟨digitsValue 16 hs, fun r => ?_⟩
    have htw : (hs ++ ';' :: r).takeWhile (fun c => decide (IsHexDigit c)) = hs :=
      takeWhile_digits _ hs r (by simpa using h3) (by decide)
    have hne : hs ≠ [] := by
      intro e; simp [e] at h1
    simp only [entityAt, String.toList, List.cons_append, startsWith, decide_True,
      Bool.true_and, Bool.and_self, List.drop_succ_cons, List.drop_zero, htw]
    simp [hne]
    exact getElem?_semicolon ('#' :: 'x' :: hs) r _ (by simp; omega)

theorem xmlDecodeAux_refRepair (x : Str) : ∀ k : Nat, '&' ∉ x.take k →
    xmlDecodeAux k (refRepair x) = some (expectedTextAux k x) := by
  induction x with
  | nil => intro k _; cases k <;> rfl
  | cons c t ih =>
    intro k hk
    cases k with
    | succ k =>
      have hc : c ≠ '&' := fun e => hk (by simp [e])
      have ht : '&' ∉ t.take k := fun e => hk (by simp [e])
      have e : refRepair (c :: t) = c :: refRepair t := by simp [refRepair, hc]
      rw [e]
      exact ih k ht
    | zero =>
      by_cases hc : c = '&'
      · subst hc
        by_cases hb : beginsEntity ('&' :: t) = true
        · obtain ⟨b, hbody, r, ht⟩ := (beginsEntity_iff t).1 hb
          have ht2 : t = b ++ ';' :: r := by rw [← ht]; simp
          subst ht2
          obtain ⟨v, hv⟩ := entityAt_body hbody
          have hn : '&' ∉ b ++ [';'] := by
            simp only [List.mem_append, List.mem_singleton, not_or]
            exact ⟨entityBody_amp_not_mem hbody, by decide⟩
          have htake : (b ++ ';' :: r).take (b.length + 1) = b ++ [';'] := by
            have h1 : b.length + 1 = (b ++ [';']).length := by simp
            have h2 : b ++ ';' :: r = (b ++ [';']) ++ r := by simp
            rw [h1, h2, List.take_left']
            rfl
          have e : refRepair ('&' :: (b ++ ';' :: r)) = '&' :: refRepair (b ++ ';' :: r) := by
            simp only [refRepair, hb, if_true]
          have e2 : refRepair (b ++ ';' :: r) = b ++ ';' :: refRepair r := by
            rw [refRepair_append _ (entityBody_amp_not_mem hbody)]
            simp [refRepair]
          have key := ih (b.length + 1) (by rw [htake]; exact hn)
          rw [e]
          simp only [xmlDecodeAux, expectedTextAux, if_true, hb, and_self]
          rw [hv r]
          rw [e2] at key ⊢
          simp only [hv (refRepair r)]
          rw [key]
          rfl
        · have e : refRepair ('&' :: t) = '&' :: 'a' :: 'm' :: 'p' :: ';' :: refRepair t := by
            simp [refRepair, hb]
          have ea : ∀ r, entityAt ('a' :: 'm' :: 'p' :: ';' :: r) = some ('&'.toNat, 4) :=
            fun r => rfl
          rw [e]
          simp only [xmlDecodeAux, expectedTextAux, if_true, hb, ea, and_false, if_false]
          have := ih 0 (by simp)
          simp only [xmlDecodeAux] at this ⊢
          rw [this]
          rfl
      · have e : refRepair (c :: t) = c :: refRepair t := by simp [refRepair, hc]
        rw [e]
        simp only [xmlDecodeAux, expectedTextAux, hc, if_false, false_and]
        rw [ih 0 (by simp)]
        rfl

theorem InternalParse_eq (env : Collaborators) (rawdata : Str) (encoding : TiXmlEncoding)
    (doc : CXBMCTinyXML) :
    InternalParse env rawdata encoding doc =
      some (TiXmlDocumentParse env (refRepair rawdata) encoding doc) := by
  simp [InternalParse, entityRepair_eq]

/-! ## The claims on entity repair -/

/-- C1: for every input, `InternalParse` returns, the text it hands to the XML parser
is the entity-repaired text, and every `&` in that text is immediately followed by
`amp;`, `lt;`, `gt;`, `quot;`, `apos;`, `#` with 1 to 5 decimal digits and `;`, or `#x`
with 1 to 4 hexadecimal digits and `;`. -/
theorem entityRepair_every_amp_legal (rawdata : Str) :
    ∃ data, entityRepair rawdata = some data ∧
      (∀ (env : Collaborators) (encoding : TiXmlEncoding) (doc : CXBMCTinyXML),
        ∃ r, InternalParse env rawdata encoding doc = some r ∧
          r.2.calls = doc.calls ++ [Call.TiXmlParse data encoding]) ∧
      ∀ pre post, data = pre ++ '&' :: post → LegalAfterAmp post :=
  ⟨refRepair rawdata, entityRepair_eq rawdata,
    fun env encoding doc => ⟨_, InternalParse_eq env rawdata encoding doc, rfl⟩,
    (allAmpLegal_iff _).1 (allAmpLegal_refRepair rawdata)⟩

/-- Witness of C1 at the input `a&b`: the `&` of the repaired text `a&amp;b` is
followed by a legal form. -/
theorem entityRepair_every_amp_legal_witness : LegalAfterAmp "amp;b".toList := by
  obtain ⟨data, h1, -, h2⟩ := entityRepair_every_amp_legal "a&b".toList
  have h : entityRepair "a&b".toList = some "a&amp;b".toList := by decide
  rw [h] at h1
  injection h1 with h1
  exact h2 "a".toList "amp;b".toList (by rw [← h1]; rfl)

/-- C2: entity repair is idempotent: repairing a repaired text gives it back. -/
theorem entityRepair_idempotent (x : Str) :
    ∃ y, entityRepair x = some y ∧ entityRepair y = some y :=
  ⟨refRepair x, entityRepair_eq x, by
    rw [entityRepair_eq, refRepair_of_allAmpLegal (allAmpLegal_refRepair x)]⟩

/-- C3: for every input the scan-and-insert loop of `InternalParse` produces the
reference rewrite of the input, which inserts `amp;` after exactly those `&` that, on
the `MAX_ENTITY_LENGTH` = 8 characters of the input starting at the `&`, begin no
legal entity form, and copies everything else. -/
theorem entityRepair_refines_refRepair (rawdata : Str) :
    entityRepair rawdata = some (refRepair rawdata) ∧
      (∀ t : Str, beginsEntity ('&' :: t) = true ↔
        LegalAfterAmp ((('&' :: t).take MAX_ENTITY_LENGTH).tail)) ∧
      (∀ t : Str, beginsEntity ('&' :: t) = true ↔ LegalAfterAmp t) := by
  refine ⟨entityRepair_eq rawdata, fun t => ?_, beginsEntity_iff⟩
  rw [beginsEntity_window]
  exact beginsEntity_iff (t.take 7)

/-- C4: decoding the entities of the repaired text gives the input with each legal
reference replaced by its character and each bare `&` kept as a literal `&`; on the
input of `Test()` the repair escapes exactly the bare `&` before `language`, and the
decoded text is the one `Test()` expects, ending in `&language=en???`. -/
theorem entityRepair_decodes_to_expected :
    (∀ x : Str, ∃ y, entityRepair x = some y ∧ xmlDecode y = some (expectedText x)) ∧
      entityRepair testData = some testRepaired ∧
      xmlDecode testRepaired = some (testDecoded.map Char.toNat) := by
  refine ⟨fun x => ⟨refRepair x, entityRepair_eq x, xmlDecodeAux_refRepair x 0 (by simp)⟩, ?_, ?_⟩
  · set_option maxRecDepth 100000 in decide
  · set_option maxRecDepth 100000 in decide

/-! ## The charset resolution -/

theorem same_refl (d : CXBMCTinyXML) : Same d d := ⟨rfl, rfl, rfl, rfl⟩

theorem same_call_left {d1 d2 : CXBMCTinyXML} (c : Call) (hc : c.isAttempt = false)
    (h : Same d1 d2) : Same (d1.call c) d2 := by
  obtain ⟨h1, h2, h3, h4⟩ := h
  refine ⟨h1, h2, h3, ?_⟩
  simp only [CXBMCTinyXML.attempts, CXBMCTinyXML.call, List.filter_append] at h4 ⊢
  simp [hc, h4, List.filter]

theorem same_warnUsed {d1 d2 : CXBMCTinyXML} (b : Bool) (det : Str) (h : Same d1 d2) :
    Same (warnUsed b det d1) d2 := by
  unfold warnUsed
  split
  · exact same_call_left _ rfl h
  · split
    · exact same_call_left _ rfl h
    · exact h

theorem same_warnUnknown {d1 d2 : CXBMCTinyXML} (det : Str) (h : Same d1 d2) :
    Same (warnUnknown det d1) d2 := by
  unfold warnUnknown
  split
  · exact same_call_left _ rfl h
  · split
    · exact same_call_left _ rfl h
    · exact h

theorem TiXmlDocumentParse_same (env : Collaborators) (text : Str) (enc : TiXmlEncoding)
    {d1 d2 : CXBMCTinyXML} (h : Same d1 d2) :
    (TiXmlDocumentParse env text enc d1).1 = (TiXmlDocumentParse env text enc d2).1 ∧
      Same (TiXmlDocumentParse env text enc d1).2 (TiXmlDocumentParse env text enc d2).2 := by
  obtain ⟨h1, h2, h3, h4⟩ := h
  simp only [TiXmlDocumentParse, h1, true_and]
  refine ⟨rfl, h2, h3, ?_⟩
  simp only [CXBMCTinyXML.attempts, CXBMCTinyXML.call, List.filter_append] at h4 ⊢
  rw [h4]

theorem TryParseResult_same (cs : Str) {d1 d2 : CXBMCTinyXML} (h : Same d1 d2) :
    (TryParseResult cs d1).1 = (TryParseResult cs d2).1 ∧
      Same (TryParseResult cs d1).2 (TryParseResult cs d2).2 := by
  obtain ⟨h1, h2, h3, h4⟩ := h
  have he : d1.error = d2.error := by rw [h1]
  unfold TryParseResult
  rw [he]
  split
  · refine ⟨rfl, ?_, h2, h3, h4⟩
    simp [CXBMCTinyXML.Clear, CXBMCTinyXML.locationClear, h1]
  · exact ⟨rfl, h1, h2, rfl, h4⟩

theorem TryParse_same (env : Collaborators) (data cs : Str) {d1 d2 : CXBMCTinyXML}
    (h : Same d1 d2) :
    ∃ r1 r2, TryParse env data cs d1 = some r1 ∧ TryParse env data cs d2 = some r2 ∧
      r1.1 = r2.1 ∧ Same r1.2 r2.2 := by
  have hconv : Same (d1.call (.ToUtf8 cs data)) (d2.call (.ToUtf8 cs data)) := by
    obtain ⟨h1, h2, h3, h4⟩ := h
    refine ⟨h1, h2, h3, ?_⟩
    simp only [CXBMCTinyXML.attempts, CXBMCTinyXML.call, List.filter_append] at h4 ⊢
    rw [h4]
  unfold TryParse
  simp only [InternalParse_eq, Option.map_some']
  split
  · exact ⟨_, _, rfl, rfl,
      TryParseResult_same cs (TiXmlDocumentParse_same env _ _ h).2⟩
  · split
    · split
      · exact ⟨_, _, rfl, rfl, rfl, hconv⟩
      · exact ⟨_, _, rfl, rfl,
          TryParseResult_same cs (TiXmlDocumentParse_same env _ _ hconv).2⟩
    · exact ⟨_, _, rfl, rfl,
        TryParseResult_same cs (TiXmlDocumentParse_same env _ _ h).2⟩

theorem TryParseResult_fields (cs : Str) (d : CXBMCTinyXML) :
    (TryParseResult cs d).2.m_SuggestedCharset = d.m_SuggestedCharset ∧
      ((TryParseResult cs d).1 = true →
        (TryParseResult cs d).2.m_UsedCharset = cs ∧ (TryParseResult cs d).2.error = false) ∧
      ((TryParseResult cs d).1 = false →
        (TryParseResult cs d).2.m_UsedCharset = d.m_UsedCharset) := by
  unfold TryParseResult
  cases he : d.error <;> simp [he, CXBMCTinyXML.Clear, CXBMCTinyXML.locationClear]

theorem TryParse_fields (env : Collaborators) (data cs : Str) (d : CXBMCTinyXML)
    (r : Bool × CXBMCTinyXML) (h : TryParse env data cs d = some r) :
    r.2.m_SuggestedCharset = d.m_SuggestedCharset ∧
      (r.1 = true → r.2.m_UsedCharset = cs ∧ r.2.error = false) ∧
      (r.1 = false → r.2.m_UsedCharset = d.m_UsedCharset) := by
  unfold TryParse at h
  simp only [InternalParse_eq, Option.map_some'] at h
  split at h
  · injection h with h
    subst h
    exact TryParseResult_fields cs _
  · split at h
    · split at h
      · injection h with h
        subst h
        simp [CXBMCTinyXML.call]
      · injection h with h
        subst h
        exact TryParseResult_fields cs _
    · injection h with h
      subst h
      exact TryParseResult_fields cs _

theorem agree_cons (env : Collaborators) (data name : Str) (cs : List Candidate)
    (K : CXBMCTinyXML → Option (Bool × CXBMCTinyXML)) (W : CXBMCTinyXML → CXBMCTinyXML)
    (hW : ∀ d e, Same d e → Same (W d) e) {d1 d2 : CXBMCTinyXML}
    (hK : ∀ e1 e2, Same e1 e2 → e1.m_SuggestedCharset = d1.m_SuggestedCharset →
      Agree (K e1) (runChain env data cs e2))
    (h : Same d1 d2) :
    Agree ((TryParse env data name d1).bind fun r =>
        if r.1 then some (true, W r.2) else K r.2)
      (runChain env data (Candidate.charset name :: cs) d2) := by
  obtain ⟨r1, r2, e1, e2, hb, hs⟩ := TryParse_same env data name h
  have hf := (TryParse_fields env data name d1 r1 e1).1
  simp only [runChain, attempt, e1, e2, Option.some_bind, ← hb]
  cases hr : r1.1
  · obtain ⟨r, q, hr1, hq, hok, hsame⟩ := hK r1.2 r2.2 hs hf
    refine ⟨r, ⟨q.ok, q.doc, Candidate.charset name :: q.tried⟩, ?_, ?_, hok, hsame⟩
    · simpa using hr1
    · simp [hq]
  · refine ⟨(true, W r1.2), ⟨true, r2.2, [Candidate.charset name]⟩, ?_, ?_, rfl, hW _ _ hs⟩ <;>
      simp

theorem agree_unknown (env : Collaborators) (data det : Str) {d1 d2 : CXBMCTinyXML}
    (h : Same d1 d2) :
    Agree (ParseFromUnknown env data det d1) (runChain env data [Candidate.raw] d2) := by
  obtain ⟨hb, hs⟩ := TiXmlDocumentParse_same env (refRepair data) .TIXML_ENCODING_UNKNOWN h
  simp only [ParseFromUnknown, runChain, attempt, InternalParse_eq, Option.some_bind, ← hb]
  cases hr : (TiXmlDocumentParse env (refRepair data) .TIXML_ENCODING_UNKNOWN d1).1
  · refine ⟨(false, (TiXmlDocumentParse env (refRepair data) .TIXML_ENCODING_UNKNOWN d1).2),
      ⟨false, (TiXmlDocumentParse env (refRepair data) .TIXML_ENCODING_UNKNOWN d2).2,
        [Candidate.raw]⟩, ?_, ?_, rfl, hs⟩ <;> simp
  · refine ⟨(true, warnUnknown det
        (TiXmlDocumentParse env (refRepair data) .TIXML_ENCODING_UNKNOWN d1).2),
      ⟨true, (TiXmlDocumentParse env (refRepair data) .TIXML_ENCODING_UNKNOWN d2).2,
        [Candidate.raw]⟩, ?_, ?_, rfl, same_warnUnknown det hs⟩ <;> simp

theorem agree_gui (env : Collaborators) (data det : Str) {d1 d2 : CXBMCTinyXML}
    (h : Same d1 d2) :
    Agree (ParseFromGui env data det d1)
      (runChain env data [Candidate.charset env.GetGuiCharSet, Candidate.raw] d2) :=
  agree_cons env data env.GetGuiCharSet [Candidate.raw] (ParseFromUnknown env data det)
    (warnUsed true det) (fun _ _ hs => same_warnUsed true det hs)
    (fun _ _ hs _ => agree_unknown env data det hs) (same_call_left _ rfl h)

theorem agree_utf8 (env : Collaborators) (data det : Str) {d1 d2 : CXBMCTinyXML}
    (h : Same d1 d2) :
    Agree (ParseFromUtf8 env data det d1)
      (runChain env data
        ((if d1.m_SuggestedCharset ≠ UTF8 ∧ det ≠ UTF8 ∧ env.isValidUtf8 data = true
            then [Candidate.charset UTF8] else []) ++
          [Candidate.charset env.GetGuiCharSet, Candidate.raw]) d2) := by
  unfold ParseFromUtf8
  by_cases hc : d1.m_SuggestedCharset ≠ UTF8 ∧ det ≠ UTF8
  · by_cases hv : env.isValidUtf8 data = true
    · have hall : d1.m_SuggestedCharset ≠ UTF8 ∧ det ≠ UTF8 ∧ env.isValidUtf8 data = true :=
        ⟨hc.1, hc.2, hv⟩
      rw [if_pos hc, if_pos hv, if_pos hall]
      exact agree_cons env data UTF8 _ (ParseFromGui env data det) (warnUsed true det)
        (fun _ _ hs => same_warnUsed true det hs) (fun _ _ hs _ => agree_gui env data det hs)
        (same_call_left _ rfl h)
    · have hall : ¬ (d1.m_SuggestedCharset ≠ UTF8 ∧ det ≠ UTF8 ∧ env.isValidUtf8 data = true) :=
        fun e => hv e.2.2
      rw [if_pos hc, if_neg hv, if_neg hall]
      simp only [Option.some_bind, Bool.false_eq_true, if_false, List.nil_append]
      exact agree_gui env data det (same_call_left _ rfl h)
  · have hall : ¬ (d1.m_SuggestedCharset ≠ UTF8 ∧ det ≠ UTF8 ∧ env.isValidUtf8 data = true) :=
      fun e => hc ⟨e.1, e.2.1⟩
    rw [if_neg hc, if_neg hall]
    simp only [Option.some_bind, Bool.false_eq_true, if_false, List.nil_append]
    exact agree_gui env data det h

theorem agree_detected (env : Collaborators) (data : Str) {d1 d2 : CXBMCTinyXML}
    (h : Same d1 d2) :
    Agree (ParseFromDetected env data d1)
      (runChain env data
        ((if (env.DetectXmlEncoding data).1 then
            [Candidate.charset (env.DetectXmlEncoding data).2] else []) ++
          ((if d1.m_SuggestedCharset ≠ UTF8 ∧ (env.DetectXmlEncoding data).2 ≠ UTF8 ∧
              env.isValidUtf8 data = true then [Candidate.charset UTF8] else []) ++
            [Candidate.charset env.GetGuiCharSet, Candidate.raw])) d2) := by
  unfold ParseFromDetected
  have hnext : ∀ e1 e2, Same e1 e2 →
      e1.m_SuggestedCharset = (d1.call (.DetectXmlEncoding data)).m_SuggestedCharset →
      Agree (ParseFromUtf8 env data (env.DetectXmlEncoding data).2 e1)
        (runChain env data
          ((if d1.m_SuggestedCharset ≠ UTF8 ∧ (env.DetectXmlEncoding data).2 ≠ UTF8 ∧
              env.isValidUtf8 data = true then [Candidate.charset UTF8] else []) ++
            [Candidate.charset env.GetGuiCharSet, Candidate.raw]) e2) := by
    intro e1 e2 hs he
    have he2 : e1.m_SuggestedCharset = d1.m_SuggestedCharset := he
    rw [← he2]
    exact agree_utf8 env data _ hs
  by_cases hd : (env.DetectXmlEncoding data).1 = true
  · simp only [hd, if_true, List.singleton_append]
    exact agree_cons env data _ _ (ParseFromUtf8 env data (env.DetectXmlEncoding data).2)
      (warnUsed false (env.DetectXmlEncoding data).2)
      (fun _ _ hs => same_warnUsed false _ hs) hnext (same_call_left _ rfl h)
  · simp only [hd, Bool.false_eq_true, if_false, Option.some_bind, List.nil_append]
    exact hnext _ _ (same_call_left _ rfl h) rfl

theorem agree_parse (env : Collaborators) (data : Str) (doc : CXBMCTinyXML) :
    Agree (Parse env data .TIXML_ENCODING_UNKNOWN doc)
      (runChain env data (candidateChain env data doc.m_SuggestedCharset)
        { doc with m_UsedCharset := [] }) := by
  unfold Parse candidateChain
  simp only [ne_eq, not_true_eq_false, if_false, List.append_assoc]
  have hnext : ∀ e1 e2, Same e1 e2 →
      e1.m_SuggestedCharset = doc.m_SuggestedCharset →
      Agree (ParseFromDetected env data e1)
        (runChain env data
        ((if (env.DetectXmlEncoding data).1 then
            [Candidate.charset (env.DetectXmlEncoding data).2] else []) ++
          ((if ¬ doc.m_SuggestedCharset = UTF8 ∧ ¬ (env.DetectXmlEncoding data).2 = UTF8 ∧
              env.isValidUtf8 data = true then [Candidate.charset UTF8] else []) ++
            [Candidate.charset env.GetGuiCharSet, Candidate.raw])) e2) := by
    intro e1 e2 hs he
    rw [← he]
    exact agree_detected env data hs
  by_cases hsug : doc.m_SuggestedCharset = []
  · simp only [hsug, not_true_eq_false, if_false, Option.some_bind, Bool.false_eq_true,
      List.nil_append]
    rw [hsug] at hnext
    exact hnext _ _ (same_refl _) rfl
  · simp only [hsug, not_false_eq_true, if_true, List.singleton_append]
    exact agree_cons env data _ _ (ParseFromDetected env data) id (fun _ _ hs => hs)
      hnext (same_refl _)

theorem attempt_fields (env : Collaborators) (data : Str) (c : Candidate) (d : CXBMCTinyXML)
    (r : Bool × CXBMCTinyXML) (h : attempt env data c d = some r) (hd : d.m_UsedCharset = []) :
    (r.1 = true → r.2.m_UsedCharset = c.charsetName) ∧ (r.1 = false → r.2.m_UsedCharset = []) := by
  cases c with
  | charset name =>
    obtain ⟨-, h2, h3⟩ := TryParse_fields env data name d r h
    exact ⟨fun e => (h2 e).1, fun e => by rw [h3 e, hd]⟩
  | raw =>
    simp only [attempt, InternalParse_eq, TiXmlDocumentParse, Option.some.injEq] at h
    subst h
    simp [Candidate.charsetName, CXBMCTinyXML.call, hd]

theorem runChain_tried (env : Collaborators) (data : Str) (cs : List Candidate) :
    ∀ (d : CXBMCTinyXML) (q : ChainResult), runChain env data cs d = some q →
      q.tried <+: cs ∧ (q.ok = false → q.tried = cs) ∧
        (q.ok = true → ∃ cand, q.tried.getLast? = some cand) := by
  induction cs with
  | nil =>
    intro d q h
    simp only [runChain, Option.some.injEq] at h
    subst h
    simp
  | cons c cs ih =>
    intro d q h
    simp only [runChain] at h
    cases ha : attempt env data c d with
    | none => simp [ha] at h
    | some r =>
      simp only [ha, Option.some_bind] at h
      cases hr : r.1
      · simp only [hr, Bool.false_eq_true, if_false, Option.map_eq_some'] at h
        obtain ⟨q1, hq1, rfl⟩ := h
        obtain ⟨h1, h2, h3⟩ := ih r.2 q1 hq1
        refine ⟨?_, ?_, ?_⟩
        · obtain ⟨t, ht⟩ := h1
          exact ⟨t, by simp [← ht]⟩
        · intro e; simp [h2 e]
        · intro e
          obtain ⟨cand, hc⟩ := h3 e
          refine ⟨cand, ?_⟩
          cases hq : q1.tried with
          | nil => simp [hq] at hc
          | cons x xs =>
            rw [hq] at hc
            simpa [List.getLast?_cons_cons] using hc
      · simp only [hr, if_true, Option.some.injEq] at h
        subst h
        exact ⟨⟨cs, rfl⟩, fun e => by simp at e, fun _ => ⟨c, rfl⟩⟩

theorem runChain_used (env : Collaborators) (data : Str) (cs : List Candidate) :
    ∀ (d : CXBMCTinyXML) (q : ChainResult), d.m_UsedCharset = [] →
      runChain env data cs d = some q →
      (q.ok = true → ∃ cand, q.tried.getLast? = some cand ∧
          q.doc.m_UsedCharset = cand.charsetName) ∧
        (q.ok = false → q.doc.m_UsedCharset = []) := by
  induction cs with
  | nil =>
    intro d q hd h
    simp only [runChain, Option.some.injEq] at h
    subst h
    simp [hd]
  | cons c cs ih =>
    intro d q hd h
    simp only [runChain] at h
    cases ha : attempt env data c d with
    | none => simp [ha] at h
    | some r =>
      obtain ⟨f1, f2⟩ := attempt_fields env data c d r ha hd
      simp only [ha, Option.some_bind] at h
      cases hr : r.1
      · simp only [hr, Bool.false_eq_true, if_false, Option.map_eq_some'] at h
        obtain ⟨q1, hq1, rfl⟩ := h
        obtain ⟨h1, h2⟩ := ih r.2 q1 (f2 hr) hq1
        refine ⟨?_, h2⟩
        intro e
        obtain ⟨cand, hc, hu⟩ := h1 e
        refine ⟨cand, ?_, hu⟩
        cases hq : q1.tried with
        | nil => simp [hq] at hc
        | cons x xs =>
          rw [hq] at hc
          simpa [List.getLast?_cons_cons] using hc
      · simp only [hr, if_true, Option.some.injEq] at h
        subst h
        exact ⟨fun _ => ⟨c, rfl, f1 hr⟩, fun e => by simp at e⟩

/-- C5: in auto-detect mode `Parse` runs the chain of candidates in the order of the
specification (suggested charset if not empty, detected charset if the detection
succeeds, UTF-8 if the data is valid UTF-8 and UTF-8 is neither suggested nor detected,
GUI charset, raw fallback): it returns what the chain returns and leaves the same
document, having made the same conversions and parser runs; the chain stops at the
first candidate whose attempt succeeds, so the candidates tried are a prefix of the
chain; on success `m_UsedCharset` is the charset of the last candidate tried, and
`Parse` returns false only when every candidate was tried and failed. -/
theorem Parse_autodetect_runs_chain (env : Collaborators) (data : Str) (doc : CXBMCTinyXML) :
    ∃ r q, Parse env data .TIXML_ENCODING_UNKNOWN doc = some r ∧
      runChain env data (candidateChain env data doc.m_SuggestedCharset)
        { doc with m_UsedCharset := [] } = some q ∧
      r.1 = q.ok ∧ r.2.toTiXmlDocument = q.doc.toTiXmlDocument ∧
      r.2.m_UsedCharset = q.doc.m_UsedCharset ∧ r.2.attempts = q.doc.attempts ∧
      q.tried <+: candidateChain env data doc.m_SuggestedCharset ∧
      (r.1 = true → ∃ cand, q.tried.getLast? = some cand ∧
        r.2.m_UsedCharset = cand.charsetName) ∧
      (r.1 = false → q.tried = candidateChain env data doc.m_SuggestedCharset) := by
  obtain ⟨r, q, hr, hq, hok, hbase, -, hused, hatt⟩ := agree_parse env data doc
  obtain ⟨t1, t2, -⟩ := runChain_tried env data _ _ q hq
  obtain ⟨u1, -⟩ := runChain_used env data _ _ q rfl hq
  refine ⟨r, q, hr, hq, hok, hbase, hused, hatt, t1, ?_, ?_⟩
  · intro e
    obtain ⟨cand, hc, hu⟩ := u1 (by rw [← hok]; exact e)
    exact ⟨cand, hc, by rw [hused, hu]⟩
  · intro e
    exact t2 (by rw [← hok]; exact e)

theorem Parse_forced_eq (env : Collaborators) (data : Str) (encoding : TiXmlEncoding)
    (doc : CXBMCTinyXML) (h : encoding ≠ .TIXML_ENCODING_UNKNOWN) :
    ∃ repaired, entityRepair data = some repaired ∧
      Parse env data encoding doc =
        some ((env.TiXmlParse repaired encoding doc.toTiXmlDocument).1,
          { toTiXmlDocument := (env.TiXmlParse repaired encoding doc.toTiXmlDocument).2
            m_SuggestedCharset := []
            m_UsedCharset := if encoding = .TIXML_ENCODING_UTF8 then UTF8 else []
            calls := doc.calls ++ [Call.TiXmlParse repaired encoding] }) := by
  refine ⟨refRepair data, entityRepair_eq data, ?_⟩
  unfold Parse
  simp only [ne_eq, h, not_false_eq_true, if_true, InternalParse_eq, TiXmlDocumentParse,
    CXBMCTinyXML.call]
  by_cases hu : encoding = .TIXML_ENCODING_UTF8 <;> simp [hu]

/-- C8: with a forced encoding (any encoding but `TIXML_ENCODING_UNKNOWN`) `Parse`
makes exactly one collaborator call, the parser on the entity-repaired data with that
encoding (no detection, no conversion, no candidate), returns the result of that
parse, clears the suggested charset, and sets `m_UsedCharset` to `UTF-8` for the UTF-8
encoding and to the empty string otherwise. -/
theorem Parse_forced_encoding (env : Collaborators) (data : Str) (encoding : TiXmlEncoding)
    (doc : CXBMCTinyXML) (h : encoding ≠ .TIXML_ENCODING_UNKNOWN) :
    ∃ repaired, entityRepair data = some repaired ∧
      Parse env data encoding doc =
        some ((env.TiXmlParse repaired encoding doc.toTiXmlDocument).1,
          { toTiXmlDocument := (env.TiXmlParse repaired encoding doc.toTiXmlDocument).2
            m_SuggestedCharset := []
            m_UsedCharset := if encoding = .TIXML_ENCODING_UTF8 then UTF8 else []
            calls := doc.calls ++ [Call.TiXmlParse repaired encoding] }) :=
  Parse_forced_eq env data encoding doc h

/-- Witness of C8: the UTF-8 encoding forced on the data `<a/>`. -/
theorem Parse_forced_encoding_witness :
    ∃ repaired, entityRepair "<a/>".toList = some repaired ∧
      Parse exampleEnv "<a/>".toList .TIXML_ENCODING_UTF8 emptyDocument =
        some ((exampleEnv.TiXmlParse repaired .TIXML_ENCODING_UTF8
            emptyDocument.toTiXmlDocument).1,
          { toTiXmlDocument := (exampleEnv.TiXmlParse repaired .TIXML_ENCODING_UTF8
              emptyDocument.toTiXmlDocument).2
            m_SuggestedCharset := []
            m_UsedCharset := if TiXmlEncoding.TIXML_ENCODING_UTF8 = .TIXML_ENCODING_UTF8
              then UTF8 else []
            calls := emptyDocument.calls ++ [Call.TiXmlParse repaired .TIXML_ENCODING_UTF8] }) :=
  Parse_forced_encoding exampleEnv "<a/>".toList .TIXML_ENCODING_UTF8 emptyDocument (by decide)

theorem ToUpper_ne_nil {s : Str} (h : s ≠ []) : ToUpper s ≠ [] := by
  simpa [ToUpper] using h

theorem TryParse_success (env : Collaborators) (data cs : Str) (d : CXBMCTinyXML)
    (hne : cs ≠ [])
    (hconv : cs = UTF8 ∨ ((env.ToUtf8 cs data).1 = true ∧ (env.ToUtf8 cs data).2 ≠ []))
    (hparse : (env.TiXmlParse (refRepair (if cs = UTF8 then data else (env.ToUtf8 cs data).2))
      .TIXML_ENCODING_UTF8 d.toTiXmlDocument).2.error = false) :
    ∃ r, TryParse env data cs d = some r ∧ r.1 = true ∧ r.2.m_UsedCharset = cs := by
  unfold TryParse
  simp only [InternalParse_eq, Option.map_some']
  by_cases hu : cs = UTF8
  · simp only [hu, if_true] at hparse ⊢
    refine ⟨_, rfl, ?_, ?_⟩ <;>
      simp [TryParseResult, TiXmlDocumentParse, CXBMCTinyXML.call, hparse]
  · rcases hconv with hc | ⟨hc1, hc2⟩
    · exact absurd hc hu
    · simp only [hu, if_false] at hparse ⊢
      have hc3 : (env.ToUtf8 cs data).2.isEmpty = false := by
        cases h : (env.ToUtf8 cs data).2 with
        | nil => exact absurd h hc2
        | cons x xs => rfl
      simp only [ne_eq, hne, not_false_eq_true, if_true, hc1, hc3, Bool.not_true, Bool.or_self,
        Bool.false_eq_true, if_false]
      refine ⟨_, rfl, ?_, ?_⟩ <;>
        simp [TryParseResult, TiXmlDocumentParse, CXBMCTinyXML.call, hparse]

/-- C6: for every data and every non-empty charset hint, if the data converts under the
upper-cased hint (no conversion is needed for UTF-8; otherwise the strict conversion
succeeds with a non-empty result) and the repaired text parses without error, then
`Parse(data, hint)` returns true and `m_UsedCharset` is the hint in upper case. -/
theorem ParseCharset_uses_hint (env : Collaborators) (data hint : Str) (doc : CXBMCTinyXML)
    (hne : hint ≠ [])
    (hconv : ToUpper hint = UTF8 ∨
      ((env.ToUtf8 (ToUpper hint) data).1 = true ∧ (env.ToUtf8 (ToUpper hint) data).2 ≠ []))
    (hparse : ∃ repaired,
      entityRepair (if ToUpper hint = UTF8 then data else (env.ToUtf8 (ToUpper hint) data).2) =
        some repaired ∧
      (env.TiXmlParse repaired .TIXML_ENCODING_UTF8 doc.toTiXmlDocument).2.error = false) :
    ∃ r, ParseCharset env data hint doc = some r ∧ r.1 = true ∧
      r.2.m_UsedCharset = ToUpper hint := by
  obtain ⟨repaired, hrep, herr⟩ := hparse
  rw [entityRepair_eq] at hrep
  injection hrep with hrep
  subst hrep
  obtain ⟨r, hr, hok, hused⟩ := TryParse_success env data (ToUpper hint)
    { doc with m_SuggestedCharset := ToUpper hint, m_UsedCharset := [] }
    (ToUpper_ne_nil hne) hconv herr
  refine ⟨r, ?_, hok, hused⟩
  unfold ParseCharset Parse
  simp only [ne_eq, not_true_eq_false, if_false, ToUpper_ne_nil hne, not_false_eq_true, if_true,
    hr, Option.some_bind, hok]
  rw [← hok]

/-- Witness of C6: the data `<a/>` with the hint `windows-1251`. -/
theorem ParseCharset_uses_hint_witness :
    ∃ r, ParseCharset exampleEnv "<a/>".toList "windows-1251".toList emptyDocument = some r ∧
      r.1 = true ∧ r.2.m_UsedCharset = ToUpper "windows-1251".toList :=
  ParseCharset_uses_hint exampleEnv "<a/>".toList "windows-1251".toList emptyDocument
    (by decide) (Or.inr (by decide)) ⟨"<a/>".toList, by decide, by decide⟩

theorem stage_false {X : Option (Bool × CXBMCTinyXML)} {W : CXBMCTinyXML → CXBMCTinyXML}
    {K : CXBMCTinyXML → Option (Bool × CXBMCTinyXML)} {res : Bool × CXBMCTinyXML}
    (h : (X.bind fun r => if r.1 then some (true, W r.2) else K r.2) = some res)
    (hf : res.1 = false) : ∃ r, X = some r ∧ r.1 = false ∧ K r.2 = some res := by
  cases X with
  | none => simp at h
  | some r =>
    simp only [Option.some_bind] at h
    cases hr : r.1
    · simp only [hr, Bool.false_eq_true, if_false] at h
      exact ⟨r, rfl, hr, h⟩
    · simp only [hr, if_true, Option.some.injEq] at h
      subst h
      simp at hf

theorem fromUnknown_false (env : Collaborators) (data det : Str) (d : CXBMCTinyXML)
    (r : Bool × CXBMCTinyXML) (h : ParseFromUnknown env data det d = some r)
    (hf : r.1 = false) :
    ∃ base, env.TiXmlParse (refRepair data) .TIXML_ENCODING_UNKNOWN base =
        (false, r.2.toTiXmlDocument) ∧
      r.2.calls.getLast? = some (Call.TiXmlParse (refRepair data) .TIXML_ENCODING_UNKNOWN) ∧
      r.2.m_UsedCharset = d.m_UsedCharset := by
  unfold ParseFromUnknown at h
  simp only [InternalParse_eq, Option.some_bind] at h
  cases hp : (TiXmlDocumentParse env (refRepair data) .TIXML_ENCODING_UNKNOWN d).1
  · simp only [hp, Bool.false_eq_true, if_false, Option.some.injEq] at h
    subst h
    refine ⟨d.toTiXmlDocument, ?_, ?_, ?_⟩
    · simp only [TiXmlDocumentParse] at hp ⊢
      rw [← hp]
    · simp [TiXmlDocumentParse, CXBMCTinyXML.call]
    · simp [TiXmlDocumentParse, CXBMCTinyXML.call]
  · simp only [hp, if_true, Option.some.injEq] at h
    subst h
    simp at hf

theorem fromGui_false (env : Collaborators) (data det : Str) (d : CXBMCTinyXML)
    (r : Bool × CXBMCTinyXML) (h : ParseFromGui env data det d = some r) (hf : r.1 = false) :
    ∃ base, env.TiXmlParse (refRepair data) .TIXML_ENCODING_UNKNOWN base =
        (false, r.2.toTiXmlDocument) ∧
      r.2.calls.getLast? = some (Call.TiXmlParse (refRepair data) .TIXML_ENCODING_UNKNOWN) ∧
      r.2.m_UsedCharset = d.m_UsedCharset := by
  obtain ⟨r1, h1, hf1, hk⟩ := stage_false h hf
  obtain ⟨base, hb, hl, hu⟩ := fromUnknown_false env data det _ r hk hf
  refine ⟨base, hb, hl, ?_⟩
  rw [hu, (TryParse_fields env data _ _ r1 h1).2.2 hf1]
  rfl

theorem fromUtf8_false (env : Collaborators) (data det : Str) (d : CXBMCTinyXML)
    (r : Bool × CXBMCTinyXML) (h : ParseFromUtf8 env data det d = some r) (hf : r.1 = false) :
    ∃ base, env.TiXmlParse (refRepair data) .TIXML_ENCODING_UNKNOWN base =
        (false, r.2.toTiXmlDocument) ∧
      r.2.calls.getLast? = some (Call.TiXmlParse (refRepair data) .TIXML_ENCODING_UNKNOWN) ∧
      r.2.m_UsedCharset = d.m_UsedCharset := by
  obtain ⟨r1, h1, hf1, hk⟩ := stage_false h hf
  obtain ⟨base, hb, hl, hu⟩ := fromGui_false env data det _ r hk hf
  refine ⟨base, hb, hl, ?_⟩
  rw [hu]
  split at h1
  · split at h1
    · rw [(TryParse_fields env data _ _ r1 h1).2.2 hf1]; rfl
    · injection h1 with h1; subst h1; rfl
  · injection h1 with h1; subst h1; rfl

theorem fromDetected_false (env : Collaborators) (data : Str) (d : CXBMCTinyXML)
    (r : Bool × CXBMCTinyXML) (h : ParseFromDetected env data d = some r) (hf : r.1 = false) :
    ∃ base, env.TiXmlParse (refRepair data) .TIXML_ENCODING_UNKNOWN base =
        (false, r.2.toTiXmlDocument) ∧
      r.2.calls.getLast? = some (Call.TiXmlParse (refRepair data) .TIXML_ENCODING_UNKNOWN) ∧
      r.2.m_UsedCharset = d.m_UsedCharset := by
  obtain ⟨r1, h1, hf1, hk⟩ := stage_false h hf
  obtain ⟨base, hb, hl, hu⟩ := fromUtf8_false env data _ _ r hk hf
  refine ⟨base, hb, hl, ?_⟩
  rw [hu]
  split at h1
  · rw [(TryParse_fields env data _ _ r1 h1).2.2 hf1]; rfl
  · injection h1 with h1; subst h1; rfl

theorem parse_false (env : Collaborators) (data : Str) (d : CXBMCTinyXML)
    (r : Bool × CXBMCTinyXML) (h : Parse env data .TIXML_ENCODING_UNKNOWN d = some r)
    (hf : r.1 = false) :
    ∃ base, env.TiXmlParse (refRepair data) .TIXML_ENCODING_UNKNOWN base =
        (false, r.2.toTiXmlDocument) ∧
      r.2.calls.getLast? = some (Call.TiXmlParse (refRepair data) .TIXML_ENCODING_UNKNOWN) ∧
      r.2.m_UsedCharset = [] := by
  unfold Parse at h
  simp only [ne_eq, not_true_eq_false, if_false] at h
  obtain ⟨r1, h1, hf1, hk⟩ := stage_false (W := id) h hf
  obtain ⟨base, hb, hl, hu⟩ := fromDetected_false env data _ r hk hf
  refine ⟨base, hb, hl, ?_⟩
  rw [hu]
  split at h1
  · rw [(TryParse_fields env data _ _ r1 h1).2.2 hf1]
  · injection h1 with h1; subst h1; rfl

/-- C9, the claim as stated fails: with the encoding forced to UTF-8, `Parse` of the
empty data returns false and leaves `m_UsedCharset` at `UTF-8`. -/
theorem Parse_failed_usedCharset_counterexample :
    (Parse exampleEnv [] .TIXML_ENCODING_UTF8 emptyDocument).map
      (fun r => (r.1, r.2.m_UsedCharset)) = some (false, "UTF-8".toList) := by
  decide

/-- C9, amended: `Parse` always returns, and when it returns false `m_UsedCharset` is
empty afterwards unless the encoding was forced to UTF-8, in which case it is `UTF-8`. -/
theorem Parse_failed_usedCharset (env : Collaborators) (data : Str) (encoding : TiXmlEncoding)
    (doc : CXBMCTinyXML) :
    ∃ r, Parse env data encoding doc = some r ∧
      (r.1 = false →
        r.2.m_UsedCharset = if encoding = .TIXML_ENCODING_UTF8 then UTF8 else []) := by
  by_cases h : encoding = .TIXML_ENCODING_UNKNOWN
  · subst h
    obtain ⟨r, q, hr, -⟩ := agree_parse env data doc
    refine ⟨r, hr, fun hf => ?_⟩
    obtain ⟨base, -, -, hu⟩ := parse_false env data doc r hr hf
    simp [hu]
  · obtain ⟨repaired, -, hp⟩ := Parse_forced_eq env data encoding doc h
    exact ⟨_, hp, fun _ => rfl⟩

/-- Witness of the amended C9: auto-detect mode on the data `<a>`, which no candidate
parses. -/
theorem Parse_failed_usedCharset_witness :
    ∃ r, Parse exampleEnv "<a>".toList .TIXML_ENCODING_UNKNOWN emptyDocument = some r ∧
      (r.1 = false →
        r.2.m_UsedCharset =
          if TiXmlEncoding.TIXML_ENCODING_UNKNOWN = .TIXML_ENCODING_UTF8 then UTF8 else []) :=
  Parse_failed_usedCharset exampleEnv "<a>".toList .TIXML_ENCODING_UNKNOWN emptyDocument

/-- C10, the claim as stated fails: on the data `<a>` every candidate of the chain
(UTF-8, the GUI charset, the raw fallback) fails, the raw fallback with a parse error,
and `Parse` returns false, but the document is not empty: it holds the unfinished
element that the last parse left. -/
theorem Parse_exhausted_not_empty_counterexample :
    (runChain exampleEnv "<a>".toList
        (candidateChain exampleEnv "<a>".toList emptyDocument.m_SuggestedCharset)
        { emptyDocument with m_UsedCharset := [] }).map (fun q => (q.ok, q.tried)) =
      some (false, [Candidate.charset "UTF-8".toList, Candidate.charset "CP1252".toList,
        Candidate.raw]) ∧
    (Parse exampleEnv "<a>".toList .TIXML_ENCODING_UNKNOWN emptyDocument).map
      (fun r => (r.1, r.2.error, r.2.children)) = some (false, true, [⟨"a".toList⟩]) := by
  decide

/-! ## Loading a file -/

theorem grows_refl (d : CXBMCTinyXML) : Grows d d := ⟨[], by simp⟩

theorem grows_trans {d1 d2 d3 : CXBMCTinyXML} (h1 : Grows d1 d2) (h2 : Grows d2 d3) :
    Grows d1 d3 := by
  obtain ⟨r1, e1⟩ := h1
  obtain ⟨r2, e2⟩ := h2
  exact ⟨r1 ++ r2, by rw [e2, e1, List.append_assoc]⟩

theorem grows_call (d : CXBMCTinyXML) (c : Call) : Grows d (d.call c) := ⟨[c], rfl⟩

theorem grows_warnUsed (b : Bool) (det : Str) (d : CXBMCTinyXML) :
    Grows d (warnUsed b det d) := by
  unfold warnUsed
  split
  · exact grows_call _ _
  · split
    · exact grows_call _ _
    · exact grows_refl _

theorem grows_warnUnknown (det : Str) (d : CXBMCTinyXML) : Grows d (warnUnknown det d) := by
  unfold warnUnknown
  split
  · exact grows_call _ _
  · split
    · exact grows_call _ _
    · exact grows_refl _

theorem TryParseResult_calls (cs : Str) (d : CXBMCTinyXML) :
    (TryParseResult cs d).2.calls = d.calls := by
  unfold TryParseResult
  split <;> rfl

theorem TryParse_first_call (env : Collaborators) (data cs : Str) (d : CXBMCTinyXML)
    (r : Bool × CXBMCTinyXML) (h : TryParse env data cs d = some r) (hne : cs ≠ []) :
    ∃ rest, r.2.calls = d.calls ++ firstAttemptCall cs data (refRepair data) :: rest := by
  unfold TryParse at h
  simp only [InternalParse_eq, Option.map_some'] at h
  unfold firstAttemptCall
  split at h
  · injection h with h
    subst h
    rw [TryParseResult_calls, if_pos (by assumption)]
    exact ⟨[], by simp [TiXmlDocumentParse, CXBMCTinyXML.call]⟩
  · rw [if_neg (by assumption)]
    split at h
    · injection h with h
      subst h
      exact ⟨[], by simp [CXBMCTinyXML.call]⟩
    · injection h with h
      subst h
      rw [TryParseResult_calls]
      exact ⟨[Call.TiXmlParse (refRepair (env.ToUtf8 cs data).2) .TIXML_ENCODING_UTF8],
        by simp [TiXmlDocumentParse, CXBMCTinyXML.call]⟩

theorem TryParse_grows (env : Collaborators) (data cs : Str) (d : CXBMCTinyXML)
    (r : Bool × CXBMCTinyXML) (h : TryParse env data cs d = some r) : Grows d r.2 := by
  by_cases hne : cs = []
  · subst hne
    unfold TryParse at h
    have hu : ¬ (([] : Str) = UTF8) := by decide
    simp only [InternalParse_eq, Option.map_some', hu, if_false, ne_eq, not_true_eq_false]
      at h
    injection h with h
    subst h
    rw [Grows, TryParseResult_calls]
    exact ⟨[Call.TiXmlParse (refRepair data) .TIXML_ENCODING_LEGACY],
      by simp [TiXmlDocumentParse, CXBMCTinyXML.call]⟩
  · obtain ⟨rest, e⟩ := TryParse_first_call env data cs d r h hne
    exact ⟨_ :: rest, e⟩

theorem stage_grows {X : Option (Bool × CXBMCTinyXML)} {W : CXBMCTinyXML → CXBMCTinyXML}
    {K : CXBMCTinyXML → Option (Bool × CXBMCTinyXML)} {res : Bool × CXBMCTinyXML}
    {d0 : CXBMCTinyXML}
    (h : (X.bind fun r => if r.1 then some (true, W r.2) else K r.2) = some res)
    (hX : ∀ r, X = some r → Grows d0 r.2) (hW : ∀ d, Grows d (W d))
    (hK : ∀ d r, K d = some r → Grows d r.2) : Grows d0 res.2 := by
  cases X with
  | none => simp at h
  | some r =>
    simp only [Option.some_bind] at h
    cases hr : r.1
    · simp only [hr, Bool.false_eq_true, if_false] at h
      exact grows_trans (hX r rfl) (hK _ _ h)
    · simp only [hr, if_true, Option.some.injEq] at h
      subst h
      exact grows_trans (hX r rfl) (hW _)

theorem fromUnknown_grows (env : Collaborators) (data det : Str) (d : CXBMCTinyXML)
    (r : Bool × CXBMCTinyXML) (h : ParseFromUnknown env data det d = some r) : Grows d r.2 := by
  unfold ParseFromUnknown at h
  refine stage_grows (K := fun d => some (false, d)) h ?_ (grows_warnUnknown det) ?_
  · intro r1 h1
    rw [InternalParse_eq] at h1
    injection h1 with h1
    subst h1
    exact ⟨[Call.TiXmlParse (refRepair data) .TIXML_ENCODING_UNKNOWN],
      by simp [TiXmlDocumentParse, CXBMCTinyXML.call]⟩
  · intro d1 r1 h1
    injection h1 with h1
    subst h1
    exact grows_refl _

theorem fromGui_grows (env : Collaborators) (data det : Str) (d : CXBMCTinyXML)
    (r : Bool × CXBMCTinyXML) (h : ParseFromGui env data det d = some r) : Grows d r.2 := by
  unfold ParseFromGui at h
  refine stage_grows h ?_ (grows_warnUsed true det) (fromUnknown_grows env data det)
  intro r1 h1
  exact grows_trans (grows_call _ _) (TryParse_grows env data _ _ r1 h1)

theorem fromUtf8_grows (env : Collaborators) (data det : Str) (d : CXBMCTinyXML)
    (r : Bool × CXBMCTinyXML) (h : ParseFromUtf8 env data det d = some r) : Grows d r.2 := by
  unfold ParseFromUtf8 at h
  refine stage_grows h ?_ (grows_warnUsed true det) (fromGui_grows env data det)
  intro r1 h1
  split at h1
  · split at h1
    · exact grows_trans (grows_call _ _) (TryParse_grows env data _ _ r1 h1)
    · injection h1 with h1; subst h1; exact grows_call _ _
  · injection h1 with h1; subst h1; exact grows_refl _

theorem fromDetected_grows (env : Collaborators) (data : Str) (d : CXBMCTinyXML)
    (r : Bool × CXBMCTinyXML) (h : ParseFromDetected env data d = some r) : Grows d r.2 := by
  unfold ParseFromDetected at h
  refine stage_grows h ?_ (grows_warnUsed false _) (fromUtf8_grows env data _)
  intro r1 h1
  split at h1
  · exact grows_trans (grows_call _ _) (TryParse_grows env data _ _ r1 h1)
  · injection h1 with h1; subst h1; exact grows_call _ _

theorem runChain_suggested (env : Collaborators) (data : Str) (cs : List Candidate) :
    ∀ (d : CXBMCTinyXML) (q : ChainResult), runChain env data cs d = some q →
      q.doc.m_SuggestedCharset = d.m_SuggestedCharset := by
  induction cs with
  | nil =>
    intro d q h
    simp only [runChain, Option.some.injEq] at h
    subst h
    rfl
  | cons c cs ih =>
    intro d q h
    simp only [runChain] at h
    cases ha : attempt env data c d with
    | none => simp [ha] at h
    | some r =>
      have hs : r.2.m_SuggestedCharset = d.m_SuggestedCharset := by
        cases c with
        | charset name => exact (TryParse_fields env data name d r ha).1
        | raw =>
          simp only [attempt, InternalParse_eq, TiXmlDocumentParse, Option.some.injEq] at ha
          subst ha
          rfl
      simp only [ha, Option.some_bind] at h
      cases hr : r.1
      · simp only [hr, Bool.false_eq_true, if_false, Option.map_eq_some'] at h
        obtain ⟨q1, hq1, rfl⟩ := h
        exact (ih r.2 q1 hq1).trans hs
      · simp only [hr, if_true, Option.some.injEq] at h
        subst h
        exact hs

/-- In auto-detect mode `Parse` keeps the suggested charset, and when it is not empty
the first collaborator call is the attempt under it. -/
theorem parse_suggested_first (env : Collaborators) (data : Str) (d : CXBMCTinyXML) :
    ∃ r, Parse env data .TIXML_ENCODING_UNKNOWN d = some r ∧
      r.2.m_SuggestedCharset = d.m_SuggestedCharset ∧
      (d.m_SuggestedCharset ≠ [] → ∃ rest, r.2.calls =
        d.calls ++ firstAttemptCall d.m_SuggestedCharset data (refRepair data) :: rest) := by
  obtain ⟨r, q, hr, hq, -, -, hsug, -⟩ := agree_parse env data d
  have hs := runChain_suggested env data _ _ q hq
  refine ⟨r, hr, hsug.trans hs, fun hne => ?_⟩
  have hr2 := hr
  unfold Parse at hr2
  simp only [ne_eq, not_true_eq_false, if_false, hne, not_false_eq_true, if_true] at hr2
  cases ht : TryParse env data d.m_SuggestedCharset { d with m_UsedCharset := [] } with
  | none => simp [ht] at hr2
  | some r1 =>
    obtain ⟨rest1, e1⟩ := TryParse_first_call env data _ _ r1 ht hne
    simp only [ht, Option.some_bind] at hr2
    cases hb : r1.1
    · simp only [hb, Bool.false_eq_true, if_false] at hr2
      obtain ⟨rest2, e2⟩ := fromDetected_grows env data _ r hr2
      exact ⟨rest1 ++ rest2, by rw [e2, e1]; simp⟩
    · simp only [hb, if_true, Option.some.injEq] at hr2
      subst hr2
      exact ⟨rest1, e1⟩

theorem parseCharset_first (env : Collaborators) (data cs : Str) (d : CXBMCTinyXML) :
    ∃ r, ParseCharset env data cs d = some r ∧ r.2.m_SuggestedCharset = ToUpper cs ∧
      (ToUpper cs ≠ [] → ∃ rest, r.2.calls =
        d.calls ++ firstAttemptCall (ToUpper cs) data (refRepair data) :: rest) :=
  parse_suggested_first env data { d with m_SuggestedCharset := ToUpper cs }

theorem LoadFile_read (env : Collaborators) (filename : Str) (encoding : TiXmlEncoding)
    (doc : CXBMCTinyXML) (hread : 0 < (env.fileLoadFile filename).1) :
    LoadFile env filename encoding doc =
      (if encoding = .TIXML_ENCODING_UNKNOWN then
        ParseCharset env (env.fileLoadFile filename).2 (env.fileContentCharset filename)
          ((({ doc with value := filename } : CXBMCTinyXML).call
            (.fileLoadFile filename)).Clear.locationClear.call (.fileGetProperty filename))
       else Parse env (env.fileLoadFile filename).2 encoding
          (({ doc with value := filename } : CXBMCTinyXML).call
            (.fileLoadFile filename)).Clear.locationClear).map
        (fun p => if p.2.error then (false, p.2) else (true, p.2)) := by
  have hnle : ¬ (env.fileLoadFile filename).1 ≤ 0 := by omega
  unfold LoadFile
  simp only [hnle, if_false]
  rfl

/-- C7, the code drops the hint of the caller: `LoadFile(filename, documentCharset)`
stores the hint in upper case (lines 86-87) and the `Parse(data, dataCharset)` it reaches
overwrites it with the content charset of the file (lines 75, 124).  The file `a.xml`
(holding `<a/>`, without a content charset) loaded with the hint `windows-1251`, under
which the data converts and parses, is resolved with an empty suggested charset: the hint
is never tried (the first attempt is UTF-8, after detection and validation) and the
charset used is `UTF-8`; the same data and hint given to `Parse(data, dataCharset)` are
resolved under `WINDOWS-1251`.  For every file that is read successfully the result of
the load is the same whatever the hint. -/
theorem LoadFileCharset_drops_hint :
    (LoadFileCharset exampleEnv "a.xml".toList "windows-1251".toList emptyDocument).map
      (fun r => (r.1, r.2.m_SuggestedCharset, r.2.m_UsedCharset, r.2.calls)) =
      some (true, [], "UTF-8".toList,
        [Call.fileLoadFile "a.xml".toList, Call.fileGetProperty "a.xml".toList,
          Call.DetectXmlEncoding "<a/>".toList, Call.isValidUtf8 "<a/>".toList,
          Call.TiXmlParse "<a/>".toList .TIXML_ENCODING_UTF8]) ∧
    (ParseCharset exampleEnv "<a/>".toList "windows-1251".toList emptyDocument).map
      (fun r => (r.1, r.2.m_SuggestedCharset, r.2.m_UsedCharset, r.2.calls)) =
      some (true, "WINDOWS-1251".toList, "WINDOWS-1251".toList,
        [Call.ToUtf8 "WINDOWS-1251".toList "<a/>".toList,
          Call.TiXmlParse "<a/>".toList .TIXML_ENCODING_UTF8]) ∧
    (∀ (env : Collaborators) (filename hint1 hint2 : Str) (doc : CXBMCTinyXML),
      0 < (env.fileLoadFile filename).1 →
      LoadFileCharset env filename hint1 doc = LoadFileCharset env filename hint2 doc) := by
  refine ⟨by decide, by decide, fun env filename hint1 hint2 doc hread => ?_⟩
  unfold LoadFileCharset
  rw [LoadFile_read env filename _ _ hread, LoadFile_read env filename _ _ hread]
  rfl

/-! ## Single attempts -/

theorem TryParse_conversion_failed (env : Collaborators) (data cs : Str) (doc : CXBMCTinyXML)
    (hu : cs ≠ UTF8) (hne : cs ≠ [])
    (hconv : (env.ToUtf8 cs data).1 = false ∨ (env.ToUtf8 cs data).2 = []) :
    TryParse env data cs doc = some (false, doc.call (.ToUtf8 cs data)) := by
  unfold TryParse
  have hc : (!(env.ToUtf8 cs data).1 || (env.ToUtf8 cs data).2.isEmpty) = true := by
    rcases hconv with h | h
    · simp [h]
    · simp [h]
  simp only [hu, if_false, ne_eq, hne, not_false_eq_true, if_true, hc]

theorem TryParse_converted (env : Collaborators) (data cs : Str) (doc : CXBMCTinyXML)
    (hu : cs ≠ UTF8) (hne : cs ≠ [])
    (hconv : (env.ToUtf8 cs data).1 = true ∧ (env.ToUtf8 cs data).2 ≠ []) :
    TryParse env data cs doc =
      some (TryParseResult cs (TiXmlDocumentParse env (refRepair (env.ToUtf8 cs data).2)
        .TIXML_ENCODING_UTF8 (doc.call (.ToUtf8 cs data))).2) := by
  unfold TryParse
  have hc3 : (env.ToUtf8 cs data).2.isEmpty = false := by
    cases h : (env.ToUtf8 cs data).2 with
    | nil => exact absurd h hconv.2
    | cons x xs => rfl
  simp only [hu, if_false, ne_eq, hne, not_false_eq_true, if_true, hconv.1, hc3, Bool.not_true,
    Bool.or_self, Bool.false_eq_true, InternalParse_eq, Option.map_some']

/-- C18: for a candidate charset that is neither `UTF-8` nor empty, if the strict
conversion fails or gives an empty text, `TryParse` returns false having made the
conversion call only (no entity repair, no parser run), and the document is otherwise
unchanged: same tree, same error state, same `m_UsedCharset`. -/
theorem TryParse_conversion_failure_leaves_document (env : Collaborators) (data cs : Str)
    (doc : CXBMCTinyXML) (hu : cs ≠ UTF8) (hne : cs ≠ [])
    (hconv : (env.ToUtf8 cs data).1 = false ∨ (env.ToUtf8 cs data).2 = []) :
    ∃ r, TryParse env data cs doc = some r ∧ r.1 = false ∧
      r.2.calls = doc.calls ++ [Call.ToUtf8 cs data] ∧
      r.2.toTiXmlDocument = doc.toTiXmlDocument ∧
      r.2.m_UsedCharset = doc.m_UsedCharset ∧
      r.2.m_SuggestedCharset = doc.m_SuggestedCharset :=
  ⟨_, TryParse_conversion_failed env data cs doc hu hne hconv, rfl, rfl, rfl, rfl, rfl⟩

/-- Witness of C18: the charset `KOI8-R`, which the example converter does not know. -/
theorem TryParse_conversion_failure_leaves_document_witness :
    ∃ r, TryParse exampleEnv "<a/>".toList "KOI8-R".toList emptyDocument = some r ∧
      r.1 = false ∧
      r.2.calls = emptyDocument.calls ++ [Call.ToUtf8 "KOI8-R".toList "<a/>".toList] ∧
      r.2.toTiXmlDocument = emptyDocument.toTiXmlDocument ∧
      r.2.m_UsedCharset = emptyDocument.m_UsedCharset ∧
      r.2.m_SuggestedCharset = emptyDocument.m_SuggestedCharset :=
  TryParse_conversion_failure_leaves_document exampleEnv "<a/>".toList "KOI8-R".toList
    emptyDocument (by decide) (by decide) (Or.inl (by decide))

/-- C19, the claim as stated fails: under `UTF-7` the raw data `<a>+ACY-</a>` holds no
`&`, so its repair is the data itself and the conversion of the repaired raw data is
`<a>&</a>`; the text `TryParse` gives to the parser is `<a>&amp;</a>`, the repair of
the converted data. -/
theorem TryParse_repair_order_counterexample :
    entityRepair "<a>+ACY-</a>".toList = some "<a>+ACY-</a>".toList ∧
    exampleEnvUtf7.ToUtf8 "UTF-7".toList "<a>+ACY-</a>".toList = (true, "<a>&</a>".toList) ∧
    (TryParse exampleEnvUtf7 "<a>+ACY-</a>".toList "UTF-7".toList emptyDocument).map
      (fun r => r.2.calls) =
      some [Call.ToUtf8 "UTF-7".toList "<a>+ACY-</a>".toList,
        Call.TiXmlParse "<a>&amp;</a>".toList .TIXML_ENCODING_UTF8] := by
  decide

/-- C19, amended: for a candidate that requires conversion (neither `UTF-8` nor empty)
whose conversion succeeds with a non-empty text, the raw data is converted first and
the text given to the parser is the entity repair of the converted text; the two calls
made are the conversion of the raw data and the parser run on that text. -/
theorem TryParse_repairs_converted_text (env : Collaborators) (data cs : Str)
    (doc : CXBMCTinyXML) (hu : cs ≠ UTF8) (hne : cs ≠ [])
    (hconv : (env.ToUtf8 cs data).1 = true ∧ (env.ToUtf8 cs data).2 ≠ []) :
    ∃ r repaired, TryParse env data cs doc = some r ∧
      entityRepair (env.ToUtf8 cs data).2 = some repaired ∧
      r.2.calls = doc.calls ++
        [Call.ToUtf8 cs data, Call.TiXmlParse repaired .TIXML_ENCODING_UTF8] := by
  refine ⟨_, refRepair (env.ToUtf8 cs data).2, TryParse_converted env data cs doc hu hne hconv,
    entityRepair_eq _, ?_⟩
  rw [TryParseResult_calls]
  simp [TiXmlDocumentParse, CXBMCTinyXML.call]

/-- Witness of the amended C19: the data `<a>+ACY-</a>` under `UTF-7`. -/
theorem TryParse_repairs_converted_text_witness :
    ∃ r repaired,
      TryParse exampleEnvUtf7 "<a>+ACY-</a>".toList "UTF-7".toList emptyDocument = some r ∧
      entityRepair (exampleEnvUtf7.ToUtf8 "UTF-7".toList "<a>+ACY-</a>".toList).2 =
        some repaired ∧
      r.2.calls = emptyDocument.calls ++
        [Call.ToUtf8 "UTF-7".toList "<a>+ACY-</a>".toList,
          Call.TiXmlParse repaired .TIXML_ENCODING_UTF8] :=
  TryParse_repairs_converted_text exampleEnvUtf7 "<a>+ACY-</a>".toList "UTF-7".toList
    emptyDocument (by decide) (by decide) (by decide)

/-! ## Termination of the scan and the digit-count boundaries -/

theorem repairLoop_none (fuel : Nat) : ∀ (done rest : Str), fuel ≤ rest.count '&' →
    repairLoop fuel (done ++ '&' :: rest) done.length = none := by
  induction fuel with
  | zero => intro done rest _; rfl
  | succ fuel ih =>
    intro done rest h
    unfold repairLoop
    simp only []
    rw [loop_body_data]
    have hI := amp_not_mem_inserted rest
    generalize inserted rest = ins at hI ⊢
    have hl : done.length + 1 = (done ++ ['&']).length := by simp
    have e0 : (done ++ '&' :: ins) ++ rest = (done ++ ['&']) ++ (ins ++ rest) := by simp
    rw [e0, hl, find_next]
    rcases split_first '&' rest with hn | ⟨r1, r2, rfl, hn⟩
    · have : rest.count '&' = 0 := List.count_eq_zero_of_not_mem hn
      omega
    · have hn2 : '&' ∉ ins ++ r1 := by
        simp only [List.mem_append, not_or]; exact ⟨hI, hn⟩
      have e3 : ins ++ (r1 ++ '&' :: r2) = (ins ++ r1) ++ '&' :: r2 := by simp
      rw [e3, indexOfChar_append r2 hn2]
      simp only [Option.map_some']
      have h2 : fuel ≤ r2.count '&' := by
        have hz : r1.count '&' = 0 := List.count_eq_zero_of_not_mem hn
        simp at h; omega
      have := ih ((done ++ '&' :: ins) ++ r1) r2 h2
      have e1 : (done ++ ['&']) ++ ((ins ++ r1) ++ '&' :: r2) =
          ((done ++ '&' :: ins) ++ r1) ++ '&' :: r2 := by simp
      have e2 : (ins ++ r1).length + (done ++ ['&']).length =
          ((done ++ '&' :: ins) ++ r1).length := by simp; omega
      rw [e1, e2, this]

theorem find_gt (data : Str) (c : Char) (pos pos1 : Nat)
    (h : find data c (pos + 1) = some pos1) : pos < pos1 := by
  unfold find at h
  cases hi : indexOfChar c (data.drop (pos + 1)) with
  | none => simp [hi] at h
  | some i =>
    simp only [hi, Option.map_some', Option.some.injEq] at h
    omega

/-- C20: the scan of the entity repair terminates on every input, although it
inserts into the text it scans: the repair returns a text; the loop, entered at the
first `&`, runs out of fuel with fewer units than the input has `&` and returns with
that many, so it performs exactly one iteration per `&` of the input; each search for
the next `&` starts after the current one and finds a position strictly past it; and
the inserted text `amp;` holds no `&`. -/
theorem entityRepair_scan_terminates (rawdata : Str) :
    (∃ out, entityRepair rawdata = some out) ∧
      (∀ pos, find rawdata '&' 0 = some pos → ∀ fuel,
        repairLoop fuel rawdata pos =
          if rawdata.count '&' ≤ fuel then some (refRepair rawdata) else none) ∧
      (∀ (data : Str) (pos pos1 : Nat), find data '&' (pos + 1) = some pos1 → pos < pos1) ∧
      '&' ∉ "amp;".toList := by
  refine ⟨⟨_, entityRepair_eq rawdata⟩, ?_, fun data pos pos1 h => find_gt data '&' pos pos1 h,
    by decide⟩
  intro pos hpos fuel
  have h0 := find_next [] rawdata
  simp only [List.nil_append, List.length_nil, Nat.add_zero] at h0
  rw [h0] at hpos
  rcases split_first '&' rawdata with hn | ⟨r1, r2, rfl, hn⟩
  · rw [indexOfChar_of_not_mem hn] at hpos
    simp at hpos
  · rw [indexOfChar_append r2 hn] at hpos
    simp only [Option.map_some', Option.some.injEq] at hpos
    subst hpos
    have hc : (r1 ++ '&' :: r2).count '&' = r2.count '&' + 1 := by
      simp [List.count_eq_zero_of_not_mem hn]
    rw [hc]
    by_cases hf : r2.count '&' + 1 ≤ fuel
    · rw [if_pos hf, repairLoop_spec fuel r1 r2 (by omega), refRepair_append _ hn]
    · rw [if_neg hf, repairLoop_none fuel r1 r2 (by omega)]

theorem prefix_before_char {c : Char} : ∀ (p pre rest : Str), p <+: pre ++ c :: rest →
    c ∉ p → p <+: pre := by
  intro p
  induction p with
  | nil => intro pre rest _ _; exact List.nil_prefix
  | cons x p ih =>
    intro pre rest h hc
    have hx : c ≠ x := fun e => hc (by simp [e])
    have hp : c ∉ p := fun e => hc (by simp [e])
    cases pre with
    | nil =>
      simp only [List.nil_append, List.cons_prefix_cons] at h
      exact absurd h.1.symm hx
    | cons y pre =>
      simp only [List.cons_append, List.cons_prefix_cons] at h ⊢
      exact ⟨h.1, ih pre rest h.2 hp⟩

theorem legalAfterAmp_before_amp (pre rest : Str) :
    LegalAfterAmp (pre ++ '&' :: rest) ↔ LegalAfterAmp pre := by
  constructor
  · rintro ⟨b, hb, hp⟩
    refine ⟨b, hb, prefix_before_char _ pre rest hp ?_⟩
    simp only [List.mem_append, List.mem_singleton, not_or]
    exact ⟨entityBody_amp_not_mem hb, by decide⟩
  · rintro ⟨b, hb, t, ht⟩
    exact ⟨b, hb, t ++ '&' :: rest, by rw [← List.append_assoc, ht]⟩

/-- What the repair makes of the text before an `&` does not depend on what follows
that `&`. -/
theorem refRepair_context (pre : Str) :
    ∃ pre', ∀ rest, refRepair (pre ++ '&' :: rest) = pre' ++ refRepair ('&' :: rest) := by
  induction pre with
  | nil => exact ⟨[], fun rest => rfl⟩
  | cons c pre ih =>
    obtain ⟨p, hp⟩ := ih
    by_cases hc : c = '&'
    · subst hc
      by_cases hl : LegalAfterAmp pre
      · refine ⟨'&' :: p, fun rest => ?_⟩
        have hb : beginsEntity ('&' :: (pre ++ '&' :: rest)) = true :=
          (beginsEntity_iff _).2 ((legalAfterAmp_before_amp pre rest).2 hl)
        rw [List.cons_append, refRepair_amp, hp rest]
        simp [inserted, hb]
      · refine ⟨'&' :: 'a' :: 'm' :: 'p' :: ';' :: p, fun rest => ?_⟩
        have hb : ¬ beginsEntity ('&' :: (pre ++ '&' :: rest)) = true := fun e =>
          hl ((legalAfterAmp_before_amp pre rest).1 ((beginsEntity_iff _).1 e))
        rw [List.cons_append, refRepair_amp, hp rest]
        simp [inserted, hb]
    · refine ⟨c :: p, fun rest => ?_⟩
      have e : ∀ t, refRepair (c :: t) = c :: refRepair t := fun t => by
        simp [refRepair, hc]
      rw [List.cons_append, e, hp rest]
      rfl

theorem refRepair_legal_reference (b post : Str) (hb : EntityBody b) :
    refRepair ('&' :: (b ++ ';' :: post)) = '&' :: (b ++ ';' :: refRepair post) := by
  have hl : LegalAfterAmp (b ++ ';' :: post) := ⟨b, hb, post, by simp⟩
  have hn : '&' ∉ b ++ [';'] := by
    simp only [List.mem_append, List.mem_singleton, not_or]
    exact ⟨entityBody_amp_not_mem hb, by decide⟩
  have e : b ++ ';' :: post = (b ++ [';']) ++ post := by simp
  simp only [refRepair, (beginsEntity_iff _).2 hl, if_true]
  rw [e, refRepair_append _ hn]
  simp

theorem refRepair_escaped_reference (b post : Str) (hn : '&' ∉ b)
    (hl : ¬ LegalAfterAmp (b ++ ';' :: post)) :
    refRepair ('&' :: (b ++ ';' :: post)) =
      '&' :: 'a' :: 'm' :: 'p' :: ';' :: (b ++ ';' :: refRepair post) := by
  have hb : ¬ beginsEntity ('&' :: (b ++ ';' :: post)) = true := fun e =>
    hl ((beginsEntity_iff _).1 e)
  have hn2 : '&' ∉ b ++ [';'] := by
    simp only [List.mem_append, List.mem_singleton, not_or]
    exact ⟨hn, by decide⟩
  have e : b ++ ';' :: post = (b ++ [';']) ++ post := by simp
  simp only [refRepair, hb, if_true, if_false]
  rw [e, refRepair_append _ hn2]
  simp

theorem semicolon_mem_of_shorter (ds' ds post : Str) (h : ds' ++ [';'] <+: ds ++ ';' :: post)
    (hlen : ds'.length < ds.length) : ';' ∈ ds := by
  obtain ⟨t, ht⟩ := h
  have h1 : (ds' ++ [';'] ++ t)[ds'.length]? = some ';' := by
    rw [List.append_assoc]
    exact getElem?_semicolon ds' t _ rfl
  rw [ht, List.getElem?_append_left hlen] at h1
  exact List.mem_iff_getElem?.2 ⟨_, h1⟩

theorem decDigit_ne_semicolon {d : Char} (h : IsDecDigit d) : d ≠ ';' := by
  rintro rfl; unfold IsDecDigit at h; revert h; decide

theorem hexDigit_ne_semicolon {d : Char} (h : IsHexDigit d) : d ≠ ';' := by
  rintro rfl; unfold IsHexDigit at h; revert h; decide

theorem decDigit_ne_x' (d : Char) (h : IsDecDigit d) : 'x' ≠ d := fun e =>
  decDigit_ne_x h e.symm

theorem not_legal_six_digits (ds post : Str) (hlen : ds.length = 6)
    (hd : ∀ d ∈ ds, IsDecDigit d) : ¬ LegalAfterAmp (('#' :: ds) ++ ';' :: post) := by
  rintro ⟨b, hb, hp⟩
  rcases hb with rfl | rfl | rfl | rfl | rfl | ⟨ds', -, h2, -, rfl⟩ | ⟨hs', -, -, -, rfl⟩
  · exact absurd (List.cons_prefix_cons.1 hp).1 (by decide)
  · exact absurd (List.cons_prefix_cons.1 hp).1 (by decide)
  · exact absurd (List.cons_prefix_cons.1 hp).1 (by decide)
  · exact absurd (List.cons_prefix_cons.1 hp).1 (by decide)
  · exact absurd (List.cons_prefix_cons.1 hp).1 (by decide)
  · have h := (List.cons_prefix_cons.1 hp).2
    have hm := semicolon_mem_of_shorter ds' ds post h (by omega)
    exact decDigit_ne_semicolon (hd _ hm) rfl
  · have h := (List.cons_prefix_cons.1 hp).2
    cases ds with
    | nil => simp at hlen
    | cons d ds =>
      have hx := (List.cons_prefix_cons.1 h).1
      exact decDigit_ne_x' d (hd d (by simp)) hx

theorem not_legal_five_hex (hs post : Str) (hlen : hs.length = 5)
    (hd : ∀ h ∈ hs, IsHexDigit h) : ¬ LegalAfterAmp (('#' :: 'x' :: hs) ++ ';' :: post) := by
  rintro ⟨b, hb, hp⟩
  rcases hb with rfl | rfl | rfl | rfl | rfl | ⟨ds', h1, -, h3, rfl⟩ | ⟨hs', -, h2, -, rfl⟩
  · exact absurd (List.cons_prefix_cons.1 hp).1 (by decide)
  · exact absurd (List.cons_prefix_cons.1 hp).1 (by decide)
  · exact absurd (List.cons_prefix_cons.1 hp).1 (by decide)
  · exact absurd (List.cons_prefix_cons.1 hp).1 (by decide)
  · exact absurd (List.cons_prefix_cons.1 hp).1 (by decide)
  · have h := (List.cons_prefix_cons.1 hp).2
    cases ds' with
    | nil => simp at h1
    | cons d ds' =>
      have hx := (List.cons_prefix_cons.1 h).1
      exact decDigit_ne_x' d (h3 d (by simp)) hx.symm
  · have h := (List.cons_prefix_cons.1 (List.cons_prefix_cons.1 hp).2).2
    have hm := semicolon_mem_of_shorter hs' hs post h (by omega)
    exact hexDigit_ne_semicolon (hd _ hm) rfl

theorem decDigits_amp_not_mem (ds : Str) (hd : ∀ d ∈ ds, IsDecDigit d) : '&' ∉ '#' :: ds := by
  intro h
  rcases List.mem_cons.1 h with h | h
  · exact absurd h (by decide)
  · exact decDigit_ne_amp (hd _ h) rfl

theorem hexDigits_amp_not_mem (hs : Str) (hd : ∀ h ∈ hs, IsHexDigit h) :
    '&' ∉ '#' :: 'x' :: hs := by
  intro h
  rcases List.mem_cons.1 h with h | h
  · exact absurd h (by decide)
  · rcases List.mem_cons.1 h with h | h
    · exact absurd h (by decide)
    · exact hexDigit_ne_amp (hd _ h) rfl

/-- C16: in every context `pre ... post` the entity repair leaves a reference `&#`
with 1 to 5 decimal digits and `;` and a reference `&#x` with 1 to 4 hexadecimal
digits and `;` unchanged, and escapes the same references with 6 decimal digits or 5
hexadecimal digits to `&amp;#...;` and `&amp;#x...;`.  The context is repaired the
same way in all four cases: `post'` is the repair of `post`, and `pre'` is what the
repair makes of `pre` before an `&`. -/
theorem entityRepair_digit_boundaries (pre post : Str) :
    ∃ pre' post', entityRepair post = some post' ∧
      entityRepair (pre ++ ['&']) = some (pre' ++ "&amp;".toList) ∧
      (∀ ds : Str, 1 ≤ ds.length → ds.length ≤ 5 → (∀ d ∈ ds, IsDecDigit d) →
        entityRepair (pre ++ '&' :: (('#' :: ds) ++ ';' :: post)) =
          some (pre' ++ '&' :: (('#' :: ds) ++ ';' :: post'))) ∧
      (∀ hs : Str, 1 ≤ hs.length → hs.length ≤ 4 → (∀ h ∈ hs, IsHexDigit h) →
        entityRepair (pre ++ '&' :: (('#' :: 'x' :: hs) ++ ';' :: post)) =
          some (pre' ++ '&' :: (('#' :: 'x' :: hs) ++ ';' :: post'))) ∧
      (∀ ds : Str, ds.length = 6 → (∀ d ∈ ds, IsDecDigit d) →
        entityRepair (pre ++ '&' :: (('#' :: ds) ++ ';' :: post)) =
          some (pre' ++ "&amp;".toList ++ (('#' :: ds) ++ ';' :: post'))) ∧
      (∀ hs : Str, hs.length = 5 → (∀ h ∈ hs, IsHexDigit h) →
        entityRepair (pre ++ '&' :: (('#' :: 'x' :: hs) ++ ';' :: post)) =
          some (pre' ++ "&amp;".toList ++ (('#' :: 'x' :: hs) ++ ';' :: post'))) := by
  obtain ⟨p, hp⟩ := refRepair_context pre
  refine ⟨p, refRepair post, entityRepair_eq post, ?_, ?_, ?_, ?_, ?_⟩
  · rw [entityRepair_eq, hp]
    rfl
  · intro ds h1 h2 h3
    rw [entityRepair_eq, hp,
      refRepair_legal_reference _ post (Or.inr (Or.inr (Or.inr (Or.inr (Or.inr (Or.inl
        ⟨ds, h1, h2, h3, rfl⟩))))))]
  · intro hs h1 h2 h3
    rw [entityRepair_eq, hp,
      refRepair_legal_reference _ post (Or.inr (Or.inr (Or.inr (Or.inr (Or.inr (Or.inr
        ⟨hs, h1, h2, h3, rfl⟩))))))]
  · intro ds h1 h3
    rw [entityRepair_eq, hp, refRepair_escaped_reference _ post (decDigits_amp_not_mem ds h3)
      (not_legal_six_digits ds post h1 h3)]
    simp
  · intro hs h1 h3
    rw [entityRepair_eq, hp, refRepair_escaped_reference _ post (hexDigits_amp_not_mem hs h3)
      (not_legal_five_hex hs post h1 h3)]
    simp

/-! ## A read that fails -/

theorem LoadFile_unread (env : Collaborators) (filename : Str) (encoding : TiXmlEncoding)
    (doc : CXBMCTinyXML) (h : (env.fileLoadFile filename).1 ≤ 0) :
    LoadFile env filename encoding doc =
      some (false, (({ doc with value := filename } : CXBMCTinyXML).call
        (.fileLoadFile filename)).SetError TIXML_ERROR_OPENING_FILE) := by
  unfold LoadFile
  simp only [h, if_true]

/-- C15, the claim as stated fails: a document whose forced parse of the empty data
failed holds the error `TIXML_ERROR_DOCUMENT_EMPTY` (12); loading the missing file
`b.xml` into it returns false, but the error id stays 12 and is not
`TIXML_ERROR_OPENING_FILE` (2). -/
theorem LoadFile_read_failure_counterexample :
    ((Parse exampleEnv [] .TIXML_ENCODING_UTF8 emptyDocument).bind fun r =>
      LoadFile exampleEnv "b.xml".toList .TIXML_ENCODING_UNKNOWN r.2).map
      (fun r => (r.1, r.2.error, r.2.errorId)) = some (false, true, 12) := by
  decide

/-- C15, amended: whenever the read fails or yields zero bytes (a result `<= 0`),
`LoadFile(filename, encoding)` returns false with the error flag set, having made the
file read its only collaborator call (no entity repair, no charset resolution, no
parser run) and leaving the tree as it was; the error id is
`TIXML_ERROR_OPENING_FILE` when the document held no error before the call, and the
id of the earlier error otherwise. -/
theorem LoadFile_read_failure (env : Collaborators) (filename : Str)
    (encoding : TiXmlEncoding) (doc : CXBMCTinyXML) (h : (env.fileLoadFile filename).1 ≤ 0) :
    ∃ r, LoadFile env filename encoding doc = some r ∧ r.1 = false ∧ r.2.error = true ∧
      (doc.error = false → r.2.errorId = TIXML_ERROR_OPENING_FILE) ∧
      (doc.error = true → r.2.errorId = doc.errorId) ∧
      r.2.calls = doc.calls ++ [Call.fileLoadFile filename] ∧
      r.2.children = doc.children := by
  refine ⟨_, LoadFile_unread env filename encoding doc h, rfl, ?_, ?_, ?_, ?_, ?_⟩ <;>
    cases he : doc.error <;> simp [CXBMCTinyXML.SetError, CXBMCTinyXML.call, he]

/-- Witness of the amended C15: the missing file `b.xml` loaded into a fresh
document. -/
theorem LoadFile_read_failure_witness :
    ∃ r, LoadFile exampleEnv "b.xml".toList .TIXML_ENCODING_UNKNOWN emptyDocument = some r ∧
      r.1 = false ∧ r.2.error = true ∧
      (emptyDocument.error = false → r.2.errorId = TIXML_ERROR_OPENING_FILE) ∧
      (emptyDocument.error = true → r.2.errorId = emptyDocument.errorId) ∧
      r.2.calls = emptyDocument.calls ++ [Call.fileLoadFile "b.xml".toList] ∧
      r.2.children = emptyDocument.children :=
  LoadFile_read_failure exampleEnv "b.xml".toList .TIXML_ENCODING_UNKNOWN emptyDocument
    (by decide)

/-! ## `Parse` after a part of the chain has failed -/

theorem logged_call (d : CXBMCTinyXML) (c : Call) (hc : c.isLog = false) :
    (d.call c).logged = d.logged := by
  simp [CXBMCTinyXML.logged, CXBMCTinyXML.call, List.filter_append, List.filter, hc]

theorem TiXmlDocumentParse_logged (env : Collaborators) (text : Str) (enc : TiXmlEncoding)
    (d : CXBMCTinyXML) : (TiXmlDocumentParse env text enc d).2.logged = d.logged := by
  simp [CXBMCTinyXML.logged, TiXmlDocumentParse, CXBMCTinyXML.call, List.filter_append,
    List.filter, Call.isLog]

theorem TryParseResult_logged (cs : Str) (d : CXBMCTinyXML) :
    (TryParseResult cs d).2.logged = d.logged := by
  unfold CXBMCTinyXML.logged
  rw [TryParseResult_calls]

theorem TryParse_logged (env : Collaborators) (data cs : Str) (d : CXBMCTinyXML)
    (r : Bool × CXBMCTinyXML) (h : TryParse env data cs d = some r) :
    r.2.logged = d.logged := by
  unfold TryParse at h
  simp only [InternalParse_eq, Option.map_some'] at h
  split at h
  · injection h with h
    subst h
    rw [TryParseResult_logged, TiXmlDocumentParse_logged]
  · split at h
    · split at h
      · injection h with h
        subst h
        exact logged_call _ _ rfl
      · injection h with h
        subst h
        rw [TryParseResult_logged, TiXmlDocumentParse_logged]
        exact logged_call _ _ rfl
    · injection h with h
      subst h
      rw [TryParseResult_logged, TiXmlDocumentParse_logged]

theorem upTo_nil (env : Collaborators) (data : Str)
    (K : CXBMCTinyXML → Option (Bool × CXBMCTinyXML)) {d0 d1 d2 : CXBMCTinyXML}
    (h : Same d1 d2) (hl : d1.logged = d0.logged) :
    AgreeUpTo K d0 (K d1) (runChain env data [] d2) :=
  ⟨⟨false, d2, []⟩, rfl, fun e => by simp at e, fun _ => ⟨d1, h, hl, rfl⟩⟩

theorem upTo_cons (env : Collaborators) (data name : Str) (cs : List Candidate)
    (K K' : CXBMCTinyXML → Option (Bool × CXBMCTinyXML)) (W : CXBMCTinyXML → CXBMCTinyXML)
    (hW : ∀ d e, Same d e → Same (W d) e) {d0 d1 d2 : CXBMCTinyXML}
    (hK : ∀ e1 e2, Same e1 e2 → e1.m_SuggestedCharset = d1.m_SuggestedCharset →
      e1.logged = d0.logged → AgreeUpTo K d0 (K' e1) (runChain env data cs e2))
    (h : Same d1 d2) (hl : d1.logged = d0.logged) :
    AgreeUpTo K d0 ((TryParse env data name d1).bind fun r =>
        if r.1 then some (true, W r.2) else K' r.2)
      (runChain env data (Candidate.charset name :: cs) d2) := by
  obtain ⟨r1, r2, e1, e2, hb, hs⟩ := TryParse_same env data name h
  have hf := (TryParse_fields env data name d1 r1 e1).1
  have hlog := (TryParse_logged env data name d1 r1 e1).trans hl
  simp only [runChain, attempt, e1, e2, Option.some_bind, ← hb]
  cases hr : r1.1
  · obtain ⟨q, hq, hok, hfail⟩ := hK r1.2 r2.2 hs hf hlog
    refine ⟨⟨q.ok, q.doc, Candidate.charset name :: q.tried⟩, by simp [hq], ?_, ?_⟩
    · intro e
      obtain ⟨r, hr1, hr2, hr3⟩ := hok e
      exact ⟨r, by simpa using hr1, hr2, hr3⟩
    · intro e
      obtain ⟨d, hd1, hd2, hd3⟩ := hfail e
      exact ⟨d, hd1, hd2, by simpa using hd3⟩
  · refine ⟨⟨true, r2.2, [Candidate.charset name]⟩, by simp, ?_, fun e => by simp at e⟩
    intro _
    exact ⟨(true, W r1.2), by simp, rfl, hW _ _ hs⟩

theorem upTo_gui (env : Collaborators) (data det : Str) {d0 d1 d2 : CXBMCTinyXML}
    (h : Same d1 d2) (hl : d1.logged = d0.logged) :
    AgreeUpTo (ParseFromUnknown env data det) d0 (ParseFromGui env data det d1)
      (runChain env data [Candidate.charset env.GetGuiCharSet] d2) :=
  upTo_cons env data env.GetGuiCharSet [] (ParseFromUnknown env data det)
    (ParseFromUnknown env data det) (warnUsed true det)
    (fun _ _ hs => same_warnUsed true det hs)
    (fun _ _ hs _ hlog => upTo_nil env data _ hs hlog) (same_call_left _ rfl h)
    ((logged_call d1 .GetGuiCharSet rfl).trans hl)

theorem upTo_utf8 (env : Collaborators) (data det : Str) {d0 d1 d2 : CXBMCTinyXML}
    (h : Same d1 d2) (hl : d1.logged = d0.logged) :
    AgreeUpTo (ParseFromUnknown env data det) d0 (ParseFromUtf8 env data det d1)
      (runChain env data
        ((if d1.m_SuggestedCharset ≠ UTF8 ∧ det ≠ UTF8 ∧ env.isValidUtf8 data = true
            then [Candidate.charset UTF8] else []) ++
          [Candidate.charset env.GetGuiCharSet]) d2) := by
  unfold ParseFromUtf8
  by_cases hc : d1.m_SuggestedCharset ≠ UTF8 ∧ det ≠ UTF8
  · by_cases hv : env.isValidUtf8 data = true
    · have hall : d1.m_SuggestedCharset ≠ UTF8 ∧ det ≠ UTF8 ∧ env.isValidUtf8 data = true :=
        ⟨hc.1, hc.2, hv⟩
      rw [if_pos hc, if_pos hv, if_pos hall]
      exact upTo_cons env data UTF8 _ _ (ParseFromGui env data det) (warnUsed true det)
        (fun _ _ hs => same_warnUsed true det hs)
        (fun _ _ hs _ hlog => upTo_gui env data det hs hlog)
        (same_call_left _ rfl h) ((logged_call d1 (.isValidUtf8 data) rfl).trans hl)
    · have hall : ¬ (d1.m_SuggestedCharset ≠ UTF8 ∧ det ≠ UTF8 ∧ env.isValidUtf8 data = true) :=
        fun e => hv e.2.2
      rw [if_pos hc, if_neg hv, if_neg hall]
      simp only [Option.some_bind, Bool.false_eq_true, if_false, List.nil_append]
      exact upTo_gui env data det (same_call_left _ rfl h)
        ((logged_call d1 (.isValidUtf8 data) rfl).trans hl)
  · have hall : ¬ (d1.m_SuggestedCharset ≠ UTF8 ∧ det ≠ UTF8 ∧ env.isValidUtf8 data = true) :=
      fun e => hc ⟨e.1, e.2.1⟩
    rw [if_neg hc, if_neg hall]
    simp only [Option.some_bind, Bool.false_eq_true, if_false, List.nil_append]
    exact upTo_gui env data det h hl

theorem upTo_detected (env : Collaborators) (data : Str) {d0 d1 d2 : CXBMCTinyXML}
    (h : Same d1 d2) (hl : d1.logged = d0.logged) :
    AgreeUpTo (ParseFromUnknown env data (env.DetectXmlEncoding data).2) d0
      (ParseFromDetected env data d1)
      (runChain env data
        ((if (env.DetectXmlEncoding data).1 then
            [Candidate.charset (env.DetectXmlEncoding data).2] else []) ++
          ((if d1.m_SuggestedCharset ≠ UTF8 ∧ (env.DetectXmlEncoding data).2 ≠ UTF8 ∧
              env.isValidUtf8 data = true then [Candidate.charset UTF8] else []) ++
            [Candidate.charset env.GetGuiCharSet])) d2) := by
  unfold ParseFromDetected
  have hnext : ∀ e1 e2, Same e1 e2 →
      e1.m_SuggestedCharset = (d1.call (.DetectXmlEncoding data)).m_SuggestedCharset →
      e1.logged = d0.logged →
      AgreeUpTo (ParseFromUnknown env data (env.DetectXmlEncoding data).2) d0
        (ParseFromUtf8 env data (env.DetectXmlEncoding data).2 e1)
        (runChain env data
          ((if d1.m_SuggestedCharset ≠ UTF8 ∧ (env.DetectXmlEncoding data).2 ≠ UTF8 ∧
              env.isValidUtf8 data = true then [Candidate.charset UTF8] else []) ++
            [Candidate.charset env.GetGuiCharSet]) e2) := by
    intro e1 e2 hs he hlog
    have he2 : e1.m_SuggestedCharset = d1.m_SuggestedCharset := he
    rw [← he2]
    exact upTo_utf8 env data _ hs hlog
  by_cases hd : (env.DetectXmlEncoding data).1 = true
  · simp only [hd, if_true, List.singleton_append]
    exact upTo_cons env data _ _ _ (ParseFromUtf8 env data (env.DetectXmlEncoding data).2)
      (warnUsed false (env.DetectXmlEncoding data).2)
      (fun _ _ hs => same_warnUsed false _ hs) hnext (same_call_left _ rfl h)
      ((logged_call d1 (.DetectXmlEncoding data) rfl).trans hl)
  · simp only [hd, Bool.false_eq_true, if_false, Option.some_bind, List.nil_append]
    exact hnext _ _ (same_call_left _ rfl h) rfl
      ((logged_call d1 (.DetectXmlEncoding data) rfl).trans hl)

theorem upTo_parse (env : Collaborators) (data : Str) (doc : CXBMCTinyXML) :
    AgreeUpTo (ParseFromUnknown env data (env.DetectXmlEncoding data).2) doc
      (Parse env data .TIXML_ENCODING_UNKNOWN doc)
      (runChain env data (charsetCandidates env data doc.m_SuggestedCharset)
        { doc with m_UsedCharset := [] }) := by
  unfold Parse charsetCandidates
  simp only [ne_eq, not_true_eq_false, if_false, List.append_assoc]
  have hnext : ∀ e1 e2, Same e1 e2 →
      e1.m_SuggestedCharset = doc.m_SuggestedCharset → e1.logged = doc.logged →
      AgreeUpTo (ParseFromUnknown env data (env.DetectXmlEncoding data).2) doc
        (ParseFromDetected env data e1)
        (runChain env data
        ((if (env.DetectXmlEncoding data).1 then
            [Candidate.charset (env.DetectXmlEncoding data).2] else []) ++
          ((if ¬ doc.m_SuggestedCharset = UTF8 ∧ ¬ (env.DetectXmlEncoding data).2 = UTF8 ∧
              env.isValidUtf8 data = true then [Candidate.charset UTF8] else []) ++
            [Candidate.charset env.GetGuiCharSet])) e2) := by
    intro e1 e2 hs he hlog
    rw [← he]
    exact upTo_detected env data hs hlog
  by_cases hsug : doc.m_SuggestedCharset = []
  · simp only [hsug, not_true_eq_false, if_false, Option.some_bind, Bool.false_eq_true,
      List.nil_append]
    rw [hsug] at hnext
    exact hnext _ _ (same_refl _) rfl rfl
  · simp only [hsug, not_false_eq_true, if_true, List.singleton_append]
    exact upTo_cons env data _ _ _ (ParseFromDetected env data) id (fun _ _ hs => hs)
      hnext (same_refl _) rfl

theorem upTo_suggested (env : Collaborators) (data : Str) (doc : CXBMCTinyXML) :
    AgreeUpTo (ParseFromDetected env data) doc
      (Parse env data .TIXML_ENCODING_UNKNOWN doc)
      (runChain env data (suggestedCandidates doc.m_SuggestedCharset)
        { doc with m_UsedCharset := [] }) := by
  unfold Parse suggestedCandidates
  simp only [ne_eq, not_true_eq_false, if_false]
  by_cases hsug : doc.m_SuggestedCharset = []
  · simp only [hsug, not_true_eq_false, if_false, Option.some_bind, Bool.false_eq_true]
    exact upTo_nil env data _ (same_refl _) rfl
  · simp only [hsug, not_false_eq_true, if_true]
    exact upTo_cons env data _ [] _ (ParseFromDetected env data) id (fun _ _ hs => hs)
      (fun _ _ hs _ hlog => upTo_nil env data _ hs hlog) (same_refl _) rfl

theorem parse_after_charsets (env : Collaborators) (data : Str) (doc : CXBMCTinyXML)
    (q : ChainResult)
    (hq : runChain env data (charsetCandidates env data doc.m_SuggestedCharset)
      { doc with m_UsedCharset := [] } = some q)
    (hfail : q.ok = false) :
    ∃ d, d.toTiXmlDocument = q.doc.toTiXmlDocument ∧ d.logged = doc.logged ∧
      d.m_UsedCharset = [] ∧ d.m_SuggestedCharset = doc.m_SuggestedCharset ∧
      Parse env data .TIXML_ENCODING_UNKNOWN doc =
        ParseFromUnknown env data (env.DetectXmlEncoding data).2 d := by
  obtain ⟨q1, hq1, -, hf⟩ := upTo_parse env data doc
  rw [hq] at hq1
  injection hq1 with hq1
  subst hq1
  obtain ⟨d, hs, hlog, hp⟩ := hf hfail
  have hu := (runChain_used env data _ _ q rfl hq).2 hfail
  have hsug := runChain_suggested env data _ _ q hq
  exact ⟨d, hs.1, hlog, hs.2.2.1.trans hu, hs.2.1.trans hsug, hp⟩

theorem parse_after_suggested (env : Collaborators) (data : Str) (doc : CXBMCTinyXML)
    (q : ChainResult)
    (hq : runChain env data (suggestedCandidates doc.m_SuggestedCharset)
      { doc with m_UsedCharset := [] } = some q)
    (hfail : q.ok = false) :
    ∃ d, d.toTiXmlDocument = q.doc.toTiXmlDocument ∧
      Parse env data .TIXML_ENCODING_UNKNOWN doc = ParseFromDetected env data d := by
  obtain ⟨q1, hq1, -, hf⟩ := upTo_suggested env data doc
  rw [hq] at hq1
  injection hq1 with hq1
  subst hq1
  obtain ⟨d, hs, -, hp⟩ := hf hfail
  exact ⟨d, hs.1, hp⟩

theorem logged_warnUnknown (det : Str) (d : CXBMCTinyXML) :
    (warnUnknown det d).logged = d.logged ++
      (if d.m_SuggestedCharset ≠ [] then
        [Call.Log (.unknownInsteadOfSuggested (logSource d) d.m_SuggestedCharset)]
       else if det ≠ [] then [Call.Log (.unknownInsteadOfDetected (logSource d) det)]
       else []) := by
  unfold warnUnknown
  split
  · simp [CXBMCTinyXML.logged, CXBMCTinyXML.call, List.filter_append, List.filter, Call.isLog]
  · split
    · simp [CXBMCTinyXML.logged, CXBMCTinyXML.call, List.filter_append, List.filter,
        Call.isLog]
    · simp

/-- C10, amended: in auto-detect mode, if every charset candidate fails and the final
raw/unknown fallback fails too, raising a parse error (the parser returns NULL on the
repaired data and leaves the error flag set), `Parse` returns false and the document has
its error flag set; its base object, tree included, is exactly what that last run of the
parser left from the document the charset candidates left, so the tree holds the nodes
that run linked and need not be empty.  `m_UsedCharset` is empty. -/
theorem Parse_exhausted_leaves_raw_parse (env : Collaborators) (data : Str)
    (doc : CXBMCTinyXML) (q : ChainResult)
    (hq : runChain env data (charsetCandidates env data doc.m_SuggestedCharset)
      { doc with m_UsedCharset := [] } = some q)
    (hfail : q.ok = false)
    (hraw : ∃ repaired, entityRepair data = some repaired ∧
      (env.TiXmlParse repaired .TIXML_ENCODING_UNKNOWN q.doc.toTiXmlDocument).1 = false ∧
      (env.TiXmlParse repaired .TIXML_ENCODING_UNKNOWN q.doc.toTiXmlDocument).2.error = true) :
    ∃ r repaired, Parse env data .TIXML_ENCODING_UNKNOWN doc = some r ∧ r.1 = false ∧
      r.2.error = true ∧ entityRepair data = some repaired ∧
      r.2.toTiXmlDocument =
        (env.TiXmlParse repaired .TIXML_ENCODING_UNKNOWN q.doc.toTiXmlDocument).2 ∧
      r.2.calls.getLast? = some (Call.TiXmlParse repaired .TIXML_ENCODING_UNKNOWN) ∧
      r.2.m_UsedCharset = [] := by
  obtain ⟨repaired, hrep, hnull, herr⟩ := hraw
  rw [entityRepair_eq] at hrep
  injection hrep with hrep
  subst hrep
  obtain ⟨d, hbase, -, hused, -, hp⟩ := parse_after_charsets env data doc q hq hfail
  have h1 : (TiXmlDocumentParse env (refRepair data) .TIXML_ENCODING_UNKNOWN d).1 = false := by
    simp only [TiXmlDocumentParse, hbase]
    exact hnull
  have h2 : (TiXmlDocumentParse env (refRepair data) .TIXML_ENCODING_UNKNOWN d).2.toTiXmlDocument =
      (env.TiXmlParse (refRepair data) .TIXML_ENCODING_UNKNOWN q.doc.toTiXmlDocument).2 := by
    simp only [TiXmlDocumentParse, hbase]
  refine ⟨(false, (TiXmlDocumentParse env (refRepair data) .TIXML_ENCODING_UNKNOWN d).2),
    refRepair data, ?_, rfl, ?_, entityRepair_eq data, h2, ?_, ?_⟩
  · rw [hp]
    simp only [ParseFromUnknown, InternalParse_eq, Option.some_bind, h1, Bool.false_eq_true,
      if_false]
  · show (TiXmlDocumentParse env (refRepair data) .TIXML_ENCODING_UNKNOWN
      d).2.toTiXmlDocument.error = true
    rw [h2]
    exact herr
  · simp [TiXmlDocumentParse, CXBMCTinyXML.call]
  · show d.m_UsedCharset = []
    exact hused

/-- Witness of the amended C10: the data `<a>` in the example environment, where the
candidates UTF-8 and CP1252 fail and leave an empty tree, and the raw parse leaves the
unfinished element and the error. -/
theorem Parse_exhausted_leaves_raw_parse_witness :
    ∃ r repaired,
      Parse exampleEnv "<a>".toList .TIXML_ENCODING_UNKNOWN emptyDocument = some r ∧
      r.1 = false ∧ r.2.error = true ∧ entityRepair "<a>".toList = some repaired ∧
      r.2.toTiXmlDocument =
        (exampleEnv.TiXmlParse repaired .TIXML_ENCODING_UNKNOWN
          { value := [], children := [], error := true, errorId := 8,
            location := (-1, -1) }).2 ∧
      r.2.calls.getLast? = some (Call.TiXmlParse repaired .TIXML_ENCODING_UNKNOWN) ∧
      r.2.m_UsedCharset = [] :=
  Parse_exhausted_leaves_raw_parse exampleEnv "<a>".toList emptyDocument
    ⟨false,
      { value := [], children := [], error := true, errorId := 8,
        location := (-1, -1), m_SuggestedCharset := [], m_UsedCharset := [],
        calls := [Call.TiXmlParse "<a>".toList .TIXML_ENCODING_UTF8,
          Call.ToUtf8 "CP1252".toList "<a>".toList,
          Call.TiXmlParse "<a>".toList .TIXML_ENCODING_UTF8] },
      [Candidate.charset "UTF-8".toList, Candidate.charset "CP1252".toList]⟩
    (by decide) rfl ⟨"<a>".toList, by decide, by decide, by decide⟩

/-- C12, the claim as stated fails: on the data `<?xml` no charset candidate succeeds
(the only one, the GUI charset, fails at the conversion), the entity repair leaves the
data as they are, and the raw parse under the unknown encoding leaves no error set, but
it returns NULL, and `Parse` returns false (with no error set and an empty
`m_UsedCharset`). -/
theorem Parse_raw_fallback_no_error_counterexample :
    (runChain exampleEnvDeclaration "<?xml".toList
        (charsetCandidates exampleEnvDeclaration "<?xml".toList emptyDocument.m_SuggestedCharset)
        { emptyDocument with m_UsedCharset := [] }).map
      (fun q => (q.ok, q.tried,
        (exampleEnvDeclaration.TiXmlParse "<?xml".toList .TIXML_ENCODING_UNKNOWN
          q.doc.toTiXmlDocument).2.error)) =
      some (false, [Candidate.charset "CP1252".toList], false) ∧
    entityRepair "<?xml".toList = some "<?xml".toList ∧
    (Parse exampleEnvDeclaration "<?xml".toList .TIXML_ENCODING_UNKNOWN emptyDocument).map
      (fun r => (r.1, r.2.error, r.2.m_UsedCharset, r.2.calls)) =
      some (false, false, [],
        [Call.DetectXmlEncoding "<?xml".toList, Call.isValidUtf8 "<?xml".toList,
          Call.GetGuiCharSet, Call.ToUtf8 "CP1252".toList "<?xml".toList,
          Call.TiXmlParse "<?xml".toList .TIXML_ENCODING_UNKNOWN]) := by
  decide

/-- C12, amended: in auto-detect mode, if every charset candidate (suggested, detected,
UTF-8, GUI charset) fails and the parser then accepts the entity-repaired raw data under
the unknown encoding, that is its result is not NULL (the test `Parse` makes at this
step), `Parse` returns true and `m_UsedCharset` is empty. -/
theorem Parse_raw_fallback_succeeds (env : Collaborators) (data : Str) (doc : CXBMCTinyXML)
    (q : ChainResult)
    (hq : runChain env data (charsetCandidates env data doc.m_SuggestedCharset)
      { doc with m_UsedCharset := [] } = some q)
    (hfail : q.ok = false)
    (hraw : ∃ repaired, entityRepair data = some repaired ∧
      (env.TiXmlParse repaired .TIXML_ENCODING_UNKNOWN q.doc.toTiXmlDocument).1 = true) :
    ∃ r, Parse env data .TIXML_ENCODING_UNKNOWN doc = some r ∧ r.1 = true ∧
      r.2.m_UsedCharset = [] := by
  obtain ⟨repaired, hrep, hacc⟩ := hraw
  rw [entityRepair_eq] at hrep
  injection hrep with hrep
  subst hrep
  obtain ⟨d, hbase, -, hused, -, hp⟩ := parse_after_charsets env data doc q hq hfail
  have h1 : (TiXmlDocumentParse env (refRepair data) .TIXML_ENCODING_UNKNOWN d).1 = true := by
    simp only [TiXmlDocumentParse, hbase]
    exact hacc
  refine ⟨(true, warnUnknown (env.DetectXmlEncoding data).2
    (TiXmlDocumentParse env (refRepair data) .TIXML_ENCODING_UNKNOWN d).2), ?_, rfl, ?_⟩
  · rw [hp]
    simp only [ParseFromUnknown, InternalParse_eq, Option.some_bind, h1, if_true]
  · have : (warnUnknown (env.DetectXmlEncoding data).2
        (TiXmlDocumentParse env (refRepair data) .TIXML_ENCODING_UNKNOWN d).2).m_UsedCharset =
        d.m_UsedCharset := by
      unfold warnUnknown
      split
      · rfl
      · split <;> rfl
    rw [this, hused]

/-- Witness of the amended C12: the data `<a/>` where no charset converts and no data is valid
UTF-8. -/
theorem Parse_raw_fallback_succeeds_witness :
    ∃ r, Parse exampleEnvRaw "<a/>".toList .TIXML_ENCODING_UNKNOWN emptyDocument = some r ∧
      r.1 = true ∧ r.2.m_UsedCharset = [] :=
  Parse_raw_fallback_succeeds exampleEnvRaw "<a/>".toList emptyDocument
    ⟨false,
      { emptyDocument with calls := [Call.ToUtf8 "CP1252".toList "<a/>".toList] },
      [Candidate.charset "CP1252".toList]⟩
    (by decide) rfl ⟨"<a/>".toList, by decide, by decide⟩

/-- C13, the claim as stated fails: with no suggested charset and no detected charset
the resolution of `<a/>` succeeds through the raw fallback (the GUI charset fails, the
raw parse is the last call) and no warning is logged. -/
theorem Parse_raw_fallback_no_warning_counterexample :
    (runChain exampleEnvRaw "<a/>".toList
        (candidateChain exampleEnvRaw "<a/>".toList emptyDocument.m_SuggestedCharset)
        { emptyDocument with m_UsedCharset := [] }).map (fun q => (q.ok, q.tried)) =
      some (true, [Candidate.charset "CP1252".toList, Candidate.raw]) ∧
    (Parse exampleEnvRaw "<a/>".toList .TIXML_ENCODING_UNKNOWN emptyDocument).map
      (fun r => (r.1, r.2.calls)) =
      some (true, [Call.DetectXmlEncoding "<a/>".toList, Call.isValidUtf8 "<a/>".toList,
        Call.GetGuiCharSet, Call.ToUtf8 "CP1252".toList "<a/>".toList,
        Call.TiXmlParse "<a/>".toList .TIXML_ENCODING_UNKNOWN]) := by
  decide

/-- C13, amended: when every charset candidate fails and `Parse` succeeds through the
raw fallback, the warnings it adds to the log are: one naming the suggested charset
when a charset is suggested; otherwise one naming the detected charset when the
detection stored one; otherwise none. -/
theorem Parse_raw_fallback_warning (env : Collaborators) (data : Str) (doc : CXBMCTinyXML)
    (q : ChainResult) (r : Bool × CXBMCTinyXML)
    (hq : runChain env data (charsetCandidates env data doc.m_SuggestedCharset)
      { doc with m_UsedCharset := [] } = some q)
    (hfail : q.ok = false)
    (hr : Parse env data .TIXML_ENCODING_UNKNOWN doc = some r) (hok : r.1 = true) :
    r.2.logged = doc.logged ++
      (if doc.m_SuggestedCharset ≠ [] then
        [Call.Log (.unknownInsteadOfSuggested (logSource r.2) doc.m_SuggestedCharset)]
       else if (env.DetectXmlEncoding data).2 ≠ [] then
        [Call.Log (.unknownInsteadOfDetected (logSource r.2) (env.DetectXmlEncoding data).2)]
       else []) := by
  obtain ⟨d, -, hlog, -, hsug, hp⟩ := parse_after_charsets env data doc q hq hfail
  rw [hp] at hr
  simp only [ParseFromUnknown, InternalParse_eq, Option.some_bind] at hr
  cases h1 : (TiXmlDocumentParse env (refRepair data) .TIXML_ENCODING_UNKNOWN d).1
  · simp only [h1, Bool.false_eq_true, if_false, Option.some.injEq] at hr
    subst hr
    simp at hok
  · simp only [h1, if_true, Option.some.injEq] at hr
    subst hr
    have hsrc : logSource (warnUnknown (env.DetectXmlEncoding data).2
        (TiXmlDocumentParse env (refRepair data) .TIXML_ENCODING_UNKNOWN d).2) =
        logSource (TiXmlDocumentParse env (refRepair data) .TIXML_ENCODING_UNKNOWN d).2 := by
      unfold warnUnknown
      split
      · rfl
      · split <;> rfl
    have hs2 : (TiXmlDocumentParse env (refRepair data) .TIXML_ENCODING_UNKNOWN
        d).2.m_SuggestedCharset = doc.m_SuggestedCharset := hsug
    rw [logged_warnUnknown, TiXmlDocumentParse_logged, hlog, hsrc, hs2]

/-- Witness of the amended C13: the data `<a/>` with the suggested charset `KOI8-R`,
which does not convert; the raw fallback succeeds and the one warning logged names
`KOI8-R`. -/
theorem Parse_raw_fallback_warning_witness :
    ((Parse exampleEnvRaw "<a/>".toList .TIXML_ENCODING_UNKNOWN
        { emptyDocument with m_SuggestedCharset := "KOI8-R".toList }).getD
      (false, emptyDocument)).2.logged =
      [Call.Log (.unknownInsteadOfSuggested "XML data".toList "KOI8-R".toList)] :=
  (Parse_raw_fallback_warning exampleEnvRaw "<a/>".toList
    { emptyDocument with m_SuggestedCharset := "KOI8-R".toList }
    ⟨false,
      { emptyDocument with
        m_SuggestedCharset := "KOI8-R".toList
        calls := [Call.ToUtf8 "KOI8-R".toList "<a/>".toList,
          Call.ToUtf8 "CP1252".toList "<a/>".toList] },
      [Candidate.charset "KOI8-R".toList, Candidate.charset "CP1252".toList]⟩
    ((Parse exampleEnvRaw "<a/>".toList .TIXML_ENCODING_UNKNOWN
        { emptyDocument with m_SuggestedCharset := "KOI8-R".toList }).getD (false, emptyDocument))
    (by decide) rfl (by decide) (by decide)).trans (by decide)

/-! ## The detected charset -/

theorem TryParse_first_call_any (env : Collaborators) (data cs : Str) (d : CXBMCTinyXML)
    (r : Bool × CXBMCTinyXML) (h : TryParse env data cs d = some r) :
    ∃ rest, r.2.calls = d.calls ++ tryParseFirstCall cs data (refRepair data) :: rest := by
  unfold tryParseFirstCall
  by_cases hne : cs = []
  · subst hne
    unfold TryParse at h
    have hu : ¬ (([] : Str) = UTF8) := by decide
    simp only [InternalParse_eq, Option.map_some', hu, if_false, ne_eq, not_true_eq_false]
      at h
    injection h with h
    subst h
    rw [TryParseResult_calls, if_pos rfl]
    exact ⟨[], by simp [TiXmlDocumentParse, CXBMCTinyXML.call]⟩
  · rw [if_neg hne]
    exact TryParse_first_call env data cs d r h hne

theorem warnUsed_fields (b : Bool) (det : Str) (d : CXBMCTinyXML) :
    (warnUsed b det d).m_UsedCharset = d.m_UsedCharset := by
  unfold warnUsed
  split
  · rfl
  · split <;> rfl

/-- C14, the claim as stated fails: the detector reports `UTF-8` and the data `<a/>`
parses without error as UTF-8, but with the suggested charset `cp1252`, under which
the data converts and parses, `Parse` returns true with the charset `CP1252`. -/
theorem Parse_detected_utf8_counterexample :
    exampleEnvDetectUtf8.DetectXmlEncoding "<a/>".toList = (true, "UTF-8".toList) ∧
    (exampleEnvDetectUtf8.TiXmlParse "<a/>".toList .TIXML_ENCODING_UTF8
      emptyDocument.toTiXmlDocument).2.error = false ∧
    (ParseCharset exampleEnvDetectUtf8 "<a/>".toList "cp1252".toList emptyDocument).map
      (fun r => (r.1, r.2.m_UsedCharset)) = some (true, "CP1252".toList) := by
  decide

/-- C14, amended: if the detector reports `UTF-8`, no charset is suggested or the
attempt under the suggested charset fails, and the repaired data then parses without
error as UTF-8, `Parse` in auto-detect mode returns true with `m_UsedCharset` =
`UTF-8`, whatever the GUI charset is. -/
theorem Parse_detected_utf8 (env : Collaborators) (data : Str) (doc : CXBMCTinyXML)
    (q : ChainResult)
    (hdet : env.DetectXmlEncoding data = (true, UTF8))
    (hq : runChain env data (suggestedCandidates doc.m_SuggestedCharset)
      { doc with m_UsedCharset := [] } = some q)
    (hfail : q.ok = false)
    (hparse : ∃ repaired, entityRepair data = some repaired ∧
      (env.TiXmlParse repaired .TIXML_ENCODING_UTF8 q.doc.toTiXmlDocument).2.error = false) :
    ∃ r, Parse env data .TIXML_ENCODING_UNKNOWN doc = some r ∧ r.1 = true ∧
      r.2.m_UsedCharset = UTF8 := by
  obtain ⟨repaired, hrep, herr⟩ := hparse
  rw [entityRepair_eq] at hrep
  injection hrep with hrep
  subst hrep
  obtain ⟨d, hbase, hp⟩ := parse_after_suggested env data doc q hq hfail
  have hne : UTF8 ≠ [] := by decide
  obtain ⟨a, ha, hok, hused⟩ := TryParse_success env data UTF8
    (d.call (.DetectXmlEncoding data)) hne (Or.inl rfl) (by
      rw [if_pos rfl]
      have : (d.call (.DetectXmlEncoding data)).toTiXmlDocument = q.doc.toTiXmlDocument := hbase
      rw [this]
      exact herr)
  refine ⟨(true, warnUsed false UTF8 a.2), ?_, rfl, ?_⟩
  · rw [hp]
    unfold ParseFromDetected
    simp only [hdet, if_true, ha, Option.some_bind, hok]
  · rw [warnUsed_fields, hused]

/-- Witness of the amended C14: the data `<a/>` with the suggested charset `KOI8-R`,
which does not convert. -/
theorem Parse_detected_utf8_witness :
    ∃ r, Parse exampleEnvDetectUtf8 "<a/>".toList .TIXML_ENCODING_UNKNOWN
        { emptyDocument with m_SuggestedCharset := "KOI8-R".toList } = some r ∧
      r.1 = true ∧ r.2.m_UsedCharset = UTF8 :=
  Parse_detected_utf8 exampleEnvDetectUtf8 "<a/>".toList
    { emptyDocument with m_SuggestedCharset := "KOI8-R".toList }
    ⟨false,
      { emptyDocument with
        m_SuggestedCharset := "KOI8-R".toList
        calls := [Call.ToUtf8 "KOI8-R".toList "<a/>".toList] },
      [Candidate.charset "KOI8-R".toList]⟩
    (by decide) (by decide) rfl ⟨"<a/>".toList, by decide, by decide⟩

/-- C17, the claim as stated fails: the detector reports `KOI8-R`, which is also the
suggested charset; after the attempt under the suggested charset failed, the
conversion under `KOI8-R` is attempted a second time, right after the detection. -/
theorem Parse_detected_equals_suggested_counterexample :
    (ParseCharset exampleEnvDetectKoi8 "<a/>".toList "koi8-r".toList emptyDocument).map
      (fun r => (r.2.m_SuggestedCharset, r.2.calls.take 3)) =
      some ("KOI8-R".toList,
        [Call.ToUtf8 "KOI8-R".toList "<a/>".toList, Call.DetectXmlEncoding "<a/>".toList,
          Call.ToUtf8 "KOI8-R".toList "<a/>".toList]) := by
  decide

/-- C17, amended: in auto-detect mode, when no charset is suggested or the attempt
under the suggested charset fails, the detected charset is attempted whenever the
detection succeeds, whether or not it differs from the suggested charset: the call
that follows the detection is the first call of the attempt under the detected
charset. -/
theorem Parse_attempts_detected (env : Collaborators) (data : Str) (doc : CXBMCTinyXML)
    (q : ChainResult)
    (hdet : (env.DetectXmlEncoding data).1 = true)
    (hq : runChain env data (suggestedCandidates doc.m_SuggestedCharset)
      { doc with m_UsedCharset := [] } = some q)
    (hfail : q.ok = false) :
    ∃ r repaired before rest, Parse env data .TIXML_ENCODING_UNKNOWN doc = some r ∧
      entityRepair data = some repaired ∧
      r.2.calls = before ++ Call.DetectXmlEncoding data ::
        tryParseFirstCall (env.DetectXmlEncoding data).2 data repaired :: rest := by
  obtain ⟨d, -, hp⟩ := parse_after_suggested env data doc q hq hfail
  obtain ⟨r, -, hr, -⟩ := agree_parse env data doc
  have hcalls : ∃ rest, r.2.calls = d.calls ++ Call.DetectXmlEncoding data ::
      tryParseFirstCall (env.DetectXmlEncoding data).2 data (refRepair data) :: rest := by
    have hr2 := hr
    rw [hp] at hr2
    unfold ParseFromDetected at hr2
    simp only [hdet, if_true] at hr2
    cases ht : TryParse env data (env.DetectXmlEncoding data).2
        (d.call (.DetectXmlEncoding data)) with
    | none => simp [ht] at hr2
    | some a =>
      obtain ⟨rest1, e1⟩ := TryParse_first_call_any env data _ _ a ht
      simp only [ht, Option.some_bind] at hr2
      have hgrow : Grows a.2 r.2 := by
        cases hb : a.1
        · simp only [hb, Bool.false_eq_true, if_false] at hr2
          exact fromUtf8_grows env data _ _ r hr2
        · simp only [hb, if_true, Option.some.injEq] at hr2
          subst hr2
          exact grows_warnUsed false _ _
      obtain ⟨rest2, e2⟩ := hgrow
      refine ⟨rest1 ++ rest2, ?_⟩
      rw [e2, e1]
      simp [CXBMCTinyXML.call]
  obtain ⟨rest, hrest⟩ := hcalls
  exact ⟨r, refRepair data, d.calls, rest, hr, entityRepair_eq data, hrest⟩

/-- Witness of the amended C17: the detector reports `KOI8-R`, the suggested charset is
`KOI8-R` and its attempt fails. -/
theorem Parse_attempts_detected_witness :
    ∃ r repaired before rest,
      Parse exampleEnvDetectKoi8 "<a/>".toList .TIXML_ENCODING_UNKNOWN
        { emptyDocument with m_SuggestedCharset := "KOI8-R".toList } = some r ∧
      entityRepair "<a/>".toList = some repaired ∧
      r.2.calls = before ++ Call.DetectXmlEncoding "<a/>".toList ::
        tryParseFirstCall (exampleEnvDetectKoi8.DetectXmlEncoding "<a/>".toList).2
          "<a/>".toList repaired :: rest :=
  Parse_attempts_detected exampleEnvDetectKoi8 "<a/>".toList
    { emptyDocument with m_SuggestedCharset := "KOI8-R".toList }
    ⟨false,
      { emptyDocument with
        m_SuggestedCharset := "KOI8-R".toList
        calls := [Call.ToUtf8 "KOI8-R".toList "<a/>".toList] },
      [Candidate.charset "KOI8-R".toList]⟩
    (by decide) (by decide) rfl

/-! ## The state of the document after a sequence of calls -/

/-- The chain of the specification is the charset candidates followed by the raw
fallback. -/
theorem candidateChain_eq_charsetCandidates (env : Collaborators) (data suggested : Str) :
    candidateChain env data suggested =
      charsetCandidates env data suggested ++ [Candidate.raw] := by
  unfold candidateChain charsetCandidates
  simp [List.append_assoc]

end XBMCTinyXML
